import Mathlib

/-!
NV21 to planar float tensor conversion (`image_utils.cpp`).

A shallow embedding of the native function
`Java_com_jazwinn_fitnesstracker_ui_camera_ImageUtils_yuvToNchwFloats`
and a verification of its specification.

Modelling conventions.

* A `jint` is an `Int`, and every `int` operation of the source whose result can leave
  the 32-bit range is followed by `wrapInt32`, the wrap-around modulo `2 ^ 32`: the
  products of lines 32, 33, 39, 40 and the index expressions of lines 42, 43, 47, 63, 65,
  66.  Sums and products commute with the wrap-around (`wrapInt32_add`, `wrapInt32_mul`),
  so an index expression is wrapped once, at its value.  The colour arithmetic of lines
  49-55 works on bytes and stays below `2 ^ 18` in absolute value.  C++ `/` on `int` is
  `Int.tdiv` (truncation toward zero) and `>> 8` is `Int.shiftRight` (arithmetic shift).
* The loop counters run from `0` below a bound that is itself an `int`, so `++x` and `++y`
  do not leave the range.
* The `jbyte` buffer is a `List Int`; `(unsigned char)yuv[i]` is the
  residue of the stored value modulo 256.
* An access outside a buffer is not defined by the code: it is the fault
  `Fault.outOfBounds`.
* The `float` quotient `k / 255.0f` of a clamped channel value is the
  rational number `k / 255`.
-/

namespace ImageUtils

/-! ## The embedding of the source -/

/-- Ways in which the native function produces no tensor. -/
inductive Fault where
  /-- The call `GetByteArrayElements` gave `nullptr`: the function logs and returns `nullptr`. -/
  | nullBuffer
  /-- A read of `yuv` or a write of `nchw` outside the buffer. -/
  | outOfBounds
  /-- The `std::vector<float> nchw(totalSize)` allocation with a negative `totalSize`. -/
  | badAlloc
  deriving DecidableEq

/-- The cast `(unsigned char)b` of a stored `jbyte`. -/
def toUnsignedChar (b : Int) : Int := b % 256

/-- The read `(unsigned char)yuv[i]`. -/
def readByte (yuv : List Int) (i : Int) : Except Fault Int :=
  if 0 ≤ i ∧ i < yuv.length then .ok (toUnsignedChar (yuv.getD i.toNat 0))
  else .error .outOfBounds

/-- The write `nchw[i] = a`. -/
def writeAt (nchw : List ℚ) (i : Int) (a : ℚ) : Except Fault (List ℚ) :=
  if 0 ≤ i ∧ i < nchw.length then .ok (nchw.set i.toNat a)
  else .error .outOfBounds

/-- The value of a 32-bit signed integer after wrap-around modulo `2 ^ 32`. -/
def wrapInt32 (v : Int) : Int := (v + 2 ^ 31) % 2 ^ 32 - 2 ^ 31

/-- Line 39: `int sx = x * srcWidth / dstWidth;`, the product and the quotient in 32 bits. -/
def sx (x srcWidth dstWidth : Int) : Int :=
  wrapInt32 (Int.tdiv (wrapInt32 (x * srcWidth)) dstWidth)

/-- Line 40: `int sy = y * srcHeight / dstHeight;`, the product and the quotient in 32
bits. -/
def sy (y srcHeight dstHeight : Int) : Int :=
  wrapInt32 (Int.tdiv (wrapInt32 (y * srcHeight)) dstHeight)

/-- Line 42: `int yIndex = sy * srcWidth + sx;`. -/
def yIndex (sx sy srcWidth : Int) : Int := sy * srcWidth + sx

/-- Line 43:
`int uvIndex = (srcWidth * srcHeight) + ((sy / 2) * srcWidth) + ((sx / 2) * 2);`. -/
def uvIndex (sx sy srcWidth srcHeight : Int) : Int :=
  (srcWidth * srcHeight) + ((Int.tdiv sy 2) * srcWidth) + ((Int.tdiv sx 2) * 2)

/-- The sum shifted on line 53, with `C = Y - 16`, `E = V - 128`. -/
def rSum (Y V : Int) : Int := 298 * (Y - 16) + 409 * (V - 128) + 128

/-- The sum shifted on line 54, with `C = Y - 16`, `D = U - 128`, `E = V - 128`. -/
def gSum (Y U V : Int) : Int := 298 * (Y - 16) - 100 * (U - 128) - 208 * (V - 128) + 128

/-- The sum shifted on line 55, with `C = Y - 16`, `D = U - 128`. -/
def bSum (Y U : Int) : Int := 298 * (Y - 16) + 516 * (U - 128) + 128

/-- Line 53: `int R = (298 * C + 409 * E + 128) >> 8;`. -/
def R (Y V : Int) : Int := rSum Y V >>> (8 : Nat)

/-- Line 54: `int G = (298 * C - 100 * D - 208 * E + 128) >> 8;`. -/
def G (Y U V : Int) : Int := gSum Y U V >>> (8 : Nat)

/-- Line 55: `int B = (298 * C + 516 * D + 128) >> 8;`. -/
def B (Y U : Int) : Int := bSum Y U >>> (8 : Nat)

/-- Lines 58-60, the integer part: `(v < 0) ? 0 : ((v > 255) ? 255 : v)`. -/
def clamp255 (v : Int) : Int := if v < 0 then 0 else (if v > 255 then 255 else v)

/-- Lines 58-60: the clamped value divided by `255.0f`. -/
def norm255 (v : Int) : ℚ := (clamp255 v : ℚ) / 255

/-- Lines 39-60: the three normalised channel values of destination pixel `(x, y)`.  The
`int` variables `yIndex`, `uvIndex` and the index `uvIndex + 1` hold the wrapped values of
their expressions. -/
def convertPixel (yuv : List Int) (srcWidth srcHeight dstWidth dstHeight x y : Int) :
    Except Fault (ℚ × ℚ × ℚ) := do
  let sx := sx x srcWidth dstWidth
  let sy := sy y srcHeight dstHeight
  let yIndex := wrapInt32 (yIndex sx sy srcWidth)
  let uvIndex := wrapInt32 (uvIndex sx sy srcWidth srcHeight)
  let Y ← readByte yuv yIndex
  let V ← readByte yuv uvIndex
  let U ← readByte yuv (wrapInt32 (uvIndex + 1))
  let rNorm := norm255 (R Y V)
  let gNorm := norm255 (G Y U V)
  let bNorm := norm255 (B Y U)
  pure (rNorm, gNorm, bNorm)

/-- Lines 63-66: the three planar writes of destination pixel `(x, y)`, with the `int`
values of `pixelIndex`, `pixelIndex + channelSize` and `pixelIndex + 2 * channelSize`. -/
def storePixel (nchw : List ℚ) (channelSize dstWidth x y : Int) (p : ℚ × ℚ × ℚ) :
    Except Fault (List ℚ) := do
  let pixelIndex := wrapInt32 (y * dstWidth + x)
  let nchw ← writeAt nchw pixelIndex p.1
  let nchw ← writeAt nchw (wrapInt32 (pixelIndex + channelSize)) p.2.1
  writeAt nchw (wrapInt32 (pixelIndex + wrapInt32 (2 * channelSize))) p.2.2

/-- The loop `for (int i = start; ...; ++i) body`, unfolded for `n` iterations from `i`. -/
def forLoop {σ : Type} (body : Int → σ → Except Fault σ) : Nat → Int → σ → Except Fault σ
  | 0, _, s => .ok s
  | n + 1, i, s => do
    let s ← body i s
    forLoop body n (i + 1) s

/-- The loop `for (int i = 0; i < hi; ++i) body`: it runs `hi` times when `hi` is
positive and not at all otherwise. -/
def forUpTo {σ : Type} (hi : Int) (body : Int → σ → Except Fault σ) (s : σ) : Except Fault σ :=
  forLoop body hi.toNat 0 s

/-- Lines 38-67: the body of the outer loop, one destination row. -/
def convertRow (yuv : List Int) (srcWidth srcHeight dstWidth dstHeight channelSize y : Int)
    (nchw : List ℚ) : Except Fault (List ℚ) :=
  forUpTo dstWidth (fun x nchw => do
    let p ← convertPixel yuv srcWidth srcHeight dstWidth dstHeight x y
    storePixel nchw channelSize dstWidth x y p) nchw

/-- Lines 32-75: the conversion once the byte buffer has been acquired.  Lines 32 and 33
compute `channelSize` and `totalSize` in 32 bits. -/
def convert (yuv : List Int) (srcWidth srcHeight dstWidth dstHeight : Int) :
    Except Fault (List ℚ) :=
  let channelSize := wrapInt32 (dstWidth * dstHeight)
  let totalSize := wrapInt32 (channelSize * 3)
  if totalSize < 0 then .error .badAlloc
  else
    forUpTo dstHeight
      (convertRow yuv srcWidth srcHeight dstWidth dstHeight channelSize)
      (List.replicate totalSize.toNat 0)

/-- Lines 15-76: `yuvToNchwFloats`.  The argument `yuvData` is what
`GetByteArrayElements` yields: `none` for `nullptr`. -/
def yuvToNchwFloats (yuvData : Option (List Int))
    (srcWidth srcHeight dstWidth dstHeight : Int) : Except Fault (List ℚ) :=
  match yuvData with
  | none => .error .nullBuffer
  | some yuv => convert yuv srcWidth srcHeight dstWidth dstHeight

/-! ## Reading the result, and the 32-bit coordinate expressions -/

/-- The element of a tensor at an integer index. -/
def tensorAt (t : List ℚ) (i : Int) : Option ℚ :=
  if 0 ≤ i then t[i.toNat]? else none

/-- Line 39 in 32-bit arithmetic with wrap-around. -/
def sx32 (x srcWidth dstWidth : Int) : Int :=
  wrapInt32 (Int.tdiv (wrapInt32 (x * srcWidth)) dstWidth)

/-- Line 40 in 32-bit arithmetic with wrap-around. -/
def sy32 (y srcHeight dstHeight : Int) : Int :=
  wrapInt32 (Int.tdiv (wrapInt32 (y * srcHeight)) dstHeight)

/-! ## Definitions used by the proofs -/

/-- Spec §3 and §4.1: the number of bytes of a frame, luma plane and interleaved chroma
plane. -/
def frameSize (srcWidth srcHeight : Int) : Int :=
  srcWidth * srcHeight + 2 * ((srcWidth + 1) / 2) * ((srcHeight + 1) / 2)

/-- The value of the `int` variable `yIndex` at destination pixel `(x, y)`. -/
def yIndexAt (srcWidth srcHeight dstWidth dstHeight x y : Int) : Int :=
  wrapInt32 (yIndex (sx x srcWidth dstWidth) (sy y srcHeight dstHeight) srcWidth)

/-- The value of the `int` variable `uvIndex` at destination pixel `(x, y)`. -/
def uvIndexAt (srcWidth srcHeight dstWidth dstHeight x y : Int) : Int :=
  wrapInt32 (uvIndex (sx x srcWidth dstWidth) (sy y srcHeight dstHeight) srcWidth srcHeight)

/-- The value of the `int` expression `uvIndex + 1` at destination pixel `(x, y)`. -/
def uIndexAt (srcWidth srcHeight dstWidth dstHeight x y : Int) : Int :=
  wrapInt32 (uvIndexAt srcWidth srcHeight dstWidth dstHeight x y + 1)

/-- The three channel values of a pixel as a total function of the bytes at the indices the
code computes: what `convertPixel` returns when its three reads are inside the buffer. -/
def pixelValue (yuv : List Int) (srcWidth srcHeight dstWidth dstHeight x y : Int) : ℚ × ℚ × ℚ :=
  let Y := toUnsignedChar
    (yuv.getD (yIndexAt srcWidth srcHeight dstWidth dstHeight x y).toNat 0)
  let V := toUnsignedChar
    (yuv.getD (uvIndexAt srcWidth srcHeight dstWidth dstHeight x y).toNat 0)
  let U := toUnsignedChar
    (yuv.getD (uIndexAt srcWidth srcHeight dstWidth dstHeight x y).toNat 0)
  (norm255 (R Y V), norm255 (G Y U V), norm255 (B Y U))

/-- The state of `nchw` after the first `k` pixels, in row-major order, have been written:
`f x y` is what pixel `(x, y)` receives and every other element is still zero. -/
def Filled (f : Int → Int → ℚ × ℚ × ℚ) (dstWidth dstHeight k : Int) (v : List ℚ) : Prop :=
  (v.length : Int) = dstWidth * dstHeight * 3 ∧
  ∀ x y : Int, 0 ≤ x → x < dstWidth → 0 ≤ y → y < dstHeight →
    tensorAt v (y * dstWidth + x) =
      some (if y * dstWidth + x < k then (f x y).1 else 0) ∧
    tensorAt v (y * dstWidth + x + dstWidth * dstHeight) =
      some (if y * dstWidth + x < k then (f x y).2.1 else 0) ∧
    tensorAt v (y * dstWidth + x + 2 * (dstWidth * dstHeight)) =
      some (if y * dstWidth + x < k then (f x y).2.2 else 0)

/-! ## The specification's formulas -/

/-- Spec §4.1 step 2: the byte of `source` at index `i`, read as unsigned `0..255`. -/
def specByte (source : List Int) (i : Int) : Int := (source.getD i.toNat 0) % 256

/-- Spec §4.1 step 5: clamp to `[0, 255]`. -/
def specClamp (v : Int) : Int := max 0 (min 255 v)

/-- Spec §4.1 steps 4-5 in the specification's words: the fixed-point sums of the unsigned
samples `Y`, `U`, `V`, shifted right by 8, clamped to `[0, 255]` and divided by 255.  The
components are red, green, blue. -/
def specRgb (Y U V : Int) : ℚ × ℚ × ℚ :=
  let C := Y - 16
  let D := U - 128
  let E := V - 128
  ((specClamp ((298 * C + 409 * E + 128) >>> (8 : Nat)) : ℚ) / 255,
   (specClamp ((298 * C - 100 * D - 208 * E + 128) >>> (8 : Nat)) : ℚ) / 255,
   (specClamp ((298 * C + 516 * D + 128) >>> (8 : Nat)) : ℚ) / 255)

/-- Spec §4.1 steps 1-5 in the specification's words: floor scaling, the luma byte, the
`V` byte and the `U` byte after it, and their conversion. -/
def specPixel (source : List Int) (srcWidth srcHeight dstWidth dstHeight x y : Int) :
    ℚ × ℚ × ℚ :=
  let sx := x * srcWidth / dstWidth
  let sy := y * srcHeight / dstHeight
  let Y := specByte source (sy * srcWidth + sx)
  let V := specByte source (srcWidth * srcHeight + (sy / 2) * srcWidth + 2 * (sx / 2))
  let U := specByte source (srcWidth * srcHeight + (sy / 2) * srcWidth + 2 * (sx / 2) + 1)
  specRgb Y U V

/-- Spec §3: the byte offset of the chroma sample at column `col`, row `row` of the chroma
plane as the data model lays it out, a row-major grid of `ceil(srcWidth/2)` two-byte
samples per row that starts after the `srcWidth*srcHeight` luma bytes. -/
def specChromaOffset (srcWidth srcHeight col row : Int) : Int :=
  srcWidth * srcHeight + 2 * (row * ((srcWidth + 1) / 2) + col)

/-! ## Variants of the kernel and index maps named by the claims -/

/-- Line 53 with `/ 256`, the C++ division that truncates toward zero, in place of `>> 8`. -/
def RDiv (Y V : Int) : Int := Int.tdiv (rSum Y V) 256

/-- Line 54 with `/ 256`, the C++ division that truncates toward zero, in place of `>> 8`. -/
def GDiv (Y U V : Int) : Int := Int.tdiv (gSum Y U V) 256

/-- Line 55 with `/ 256`, the C++ division that truncates toward zero, in place of `>> 8`. -/
def BDiv (Y U : Int) : Int := Int.tdiv (bSum Y U) 256

theorem wrapInt32_of_range {v : Int} (h0 : -2 ^ 31 ≤ v) (h1 : v < 2 ^ 31) : wrapInt32 v = v := by
  unfold wrapInt32
  norm_num at h0 h1 ⊢
  omega

theorem wrapInt32_range (v : Int) : -2 ^ 31 ≤ wrapInt32 v ∧ wrapInt32 v < 2 ^ 31 := by
  unfold wrapInt32
  norm_num
  omega

theorem wrapInt32_emod (v : Int) : wrapInt32 v % 2 ^ 32 = v % 2 ^ 32 := by
  unfold wrapInt32
  norm_num
  omega

theorem wrapInt32_congr {a b : Int} (h : a % 2 ^ 32 = b % 2 ^ 32) :
    wrapInt32 a = wrapInt32 b := by
  unfold wrapInt32
  norm_num at h ⊢
  omega

/-- A sum of two `int` values wraps to the wrap of the exact sum. -/
theorem wrapInt32_add (a b : Int) :
    wrapInt32 (wrapInt32 a + wrapInt32 b) = wrapInt32 (a + b) := by
  apply wrapInt32_congr
  rw [Int.add_emod, wrapInt32_emod, wrapInt32_emod, ← Int.add_emod]

/-- A product of two `int` values wraps to the wrap of the exact product. -/
theorem wrapInt32_mul (a b : Int) :
    wrapInt32 (wrapInt32 a * wrapInt32 b) = wrapInt32 (a * b) := by
  apply wrapInt32_congr
  rw [Int.mul_emod, wrapInt32_emod, wrapInt32_emod, ← Int.mul_emod]

/-! ## Arithmetic of the sample coordinates -/

theorem sx_eq_sx32 (x srcWidth dstWidth : Int) :
    sx x srcWidth dstWidth = sx32 x srcWidth dstWidth :=
  rfl

theorem sy_eq_sy32 (y srcHeight dstHeight : Int) :
    sy y srcHeight dstHeight = sy32 y srcHeight dstHeight :=
  rfl

/-- When the product `x * srcWidth` fits in 32 bits the wrapped expression of line 39 is the
mathematical floor. -/
theorem sx32_eq_floor_of_fits {x srcWidth dstWidth : Int} (hx0 : 0 ≤ x) (hs : 0 ≤ srcWidth)
    (hd : 0 < dstWidth) (hfit : x * srcWidth < 2 ^ 31) :
    sx32 x srcWidth dstWidth = x * srcWidth / dstWidth := by
  have hp : 0 ≤ x * srcWidth := Int.mul_nonneg hx0 hs
  have hq0 : 0 ≤ x * srcWidth / dstWidth := Int.ediv_nonneg hp hd.le
  have hq1 : x * srcWidth / dstWidth ≤ x * srcWidth := Int.ediv_le_self _ hp
  unfold sx32
  rw [wrapInt32_of_range (by norm_num; omega) hfit, Int.tdiv_eq_ediv hp hd.le,
    wrapInt32_of_range (by norm_num; omega) (by omega)]

theorem sx_eq_ediv {x srcWidth dstWidth : Int} (hx : 0 ≤ x) (hs : 0 ≤ srcWidth)
    (hd : 0 < dstWidth) (hfit : x * srcWidth < 2 ^ 31) :
    sx x srcWidth dstWidth = x * srcWidth / dstWidth :=
  sx32_eq_floor_of_fits hx hs hd hfit

theorem sy_eq_ediv {y srcHeight dstHeight : Int} (hy : 0 ≤ y) (hs : 0 ≤ srcHeight)
    (hd : 0 < dstHeight) (hfit : y * srcHeight < 2 ^ 31) :
    sy y srcHeight dstHeight = y * srcHeight / dstHeight :=
  sx32_eq_floor_of_fits hy hs hd hfit

/-- The product of line 39 fits for every column when it fits for the last one. -/
theorem product_fits {x s d : Int} (hx : x < d) (hs : 0 ≤ s) (hfit : (d - 1) * s < 2 ^ 31) :
    x * s < 2 ^ 31 :=
  lt_of_le_of_lt (Int.mul_le_mul_of_nonneg_right (by omega) hs) hfit

theorem scale_bounds {x s d : Int} (hx0 : 0 ≤ x) (hx : x < d) (hs : 0 < s) :
    0 ≤ x * s / d ∧ x * s / d < s := by
  have hd : 0 < d := by omega
  refine ⟨Int.ediv_nonneg (Int.mul_nonneg hx0 hs.le) hd.le, ?_⟩
  apply Int.ediv_lt_of_lt_mul hd
  nlinarith

theorem uvIndex_eq {a b srcWidth srcHeight : Int} (ha : 0 ≤ a) (hb : 0 ≤ b) :
    uvIndex a b srcWidth srcHeight = srcWidth * srcHeight + (b / 2) * srcWidth + 2 * (a / 2) := by
  unfold uvIndex
  rw [Int.tdiv_eq_ediv hb (by decide), Int.tdiv_eq_ediv ha (by decide)]
  ring

theorem index_bounds {a b srcWidth srcHeight : Int} (ha0 : 0 ≤ a) (ha : a < srcWidth)
    (hb0 : 0 ≤ b) (hb : b < srcHeight) :
    0 ≤ yIndex a b srcWidth ∧ yIndex a b srcWidth < frameSize srcWidth srcHeight ∧
    0 ≤ uvIndex a b srcWidth srcHeight ∧
    uvIndex a b srcWidth srcHeight + 1 < frameSize srcWidth srcHeight := by
  rw [uvIndex_eq ha0 hb0]
  unfold yIndex frameSize
  have h1 : 0 ≤ b * srcWidth := Int.mul_nonneg hb0 (by omega)
  have h2 : (b + 1) * srcWidth ≤ srcHeight * srcWidth :=
    Int.mul_le_mul_of_nonneg_right (by omega) (by omega)
  have h3 : 0 ≤ (b / 2) * srcWidth := Int.mul_nonneg (by omega) (by omega)
  have h4 : (b / 2 + 1) * srcWidth ≤ ((srcHeight + 1) / 2) * srcWidth :=
    Int.mul_le_mul_of_nonneg_right (by omega) (by omega)
  have h5 : 0 ≤ ((srcWidth + 1) / 2) * ((srcHeight + 1) / 2) :=
    Int.mul_nonneg (by omega) (by omega)
  have h6 : 1 ≤ (srcHeight + 1) / 2 := by omega
  have h7 : 0 ≤ srcWidth * srcHeight := Int.mul_nonneg (by omega) (by omega)
  have h8 : ((srcHeight + 1) / 2) * srcWidth ≤ ((srcHeight + 1) / 2) * (2 * ((srcWidth + 1) / 2)) :=
    Int.mul_le_mul_of_nonneg_left (by omega) (by omega)
  have h11 : 0 ≤ a / 2 := by omega
  rcases Int.emod_two_eq_zero_or_one srcWidth with hw | hw
  · have h9 : 2 * (a / 2) + 1 < srcWidth := by omega
    refine ⟨by omega, by nlinarith, by nlinarith, by nlinarith⟩
  · have h9 : 2 * (a / 2) + 1 ≤ srcWidth := by omega
    have h10 : ((srcHeight + 1) / 2) * srcWidth + ((srcHeight + 1) / 2) =
        ((srcHeight + 1) / 2) * (2 * ((srcWidth + 1) / 2)) := by
      have : 2 * ((srcWidth + 1) / 2) = srcWidth + 1 := by omega
      rw [this]; ring
    refine ⟨by omega, by nlinarith, by nlinarith, by nlinarith⟩

theorem readByte_ok {yuv : List Int} {i : Int} (h0 : 0 ≤ i) (h : i < yuv.length) :
    readByte yuv i = .ok (toUnsignedChar (yuv.getD i.toNat 0)) := by
  unfold readByte
  rw [if_pos ⟨h0, h⟩]

/-! ## The reads of a pixel -/

theorem readByte_error {yuv : List Int} {i : Int} {e : Fault}
    (h : readByte yuv i = .error e) : e = .outOfBounds := by
  unfold readByte at h
  split at h
  · cases h
  · simp only [Except.error.injEq] at h
    exact h.symm

/-- A pixel's conversion returns exactly when its three indices are inside the buffer, and
then it returns `pixelValue`; otherwise it reads outside the buffer. -/
theorem convertPixel_cases (yuv : List Int) (srcWidth srcHeight dstWidth dstHeight x y : Int) :
    ((0 ≤ yIndexAt srcWidth srcHeight dstWidth dstHeight x y ∧
        yIndexAt srcWidth srcHeight dstWidth dstHeight x y < yuv.length) ∧
      (0 ≤ uvIndexAt srcWidth srcHeight dstWidth dstHeight x y ∧
        uvIndexAt srcWidth srcHeight dstWidth dstHeight x y < yuv.length) ∧
      (0 ≤ uIndexAt srcWidth srcHeight dstWidth dstHeight x y ∧
        uIndexAt srcWidth srcHeight dstWidth dstHeight x y < yuv.length) ∧
      convertPixel yuv srcWidth srcHeight dstWidth dstHeight x y =
        .ok (pixelValue yuv srcWidth srcHeight dstWidth dstHeight x y)) ∨
    (¬ ((0 ≤ yIndexAt srcWidth srcHeight dstWidth dstHeight x y ∧
          yIndexAt srcWidth srcHeight dstWidth dstHeight x y < yuv.length) ∧
        (0 ≤ uvIndexAt srcWidth srcHeight dstWidth dstHeight x y ∧
          uvIndexAt srcWidth srcHeight dstWidth dstHeight x y < yuv.length) ∧
        (0 ≤ uIndexAt srcWidth srcHeight dstWidth dstHeight x y ∧
          uIndexAt srcWidth srcHeight dstWidth dstHeight x y < yuv.length)) ∧
      convertPixel yuv srcWidth srcHeight dstWidth dstHeight x y = .error .outOfBounds) := by
  unfold convertPixel pixelValue uIndexAt uvIndexAt yIndexAt readByte
  simp only [bind, Except.bind, pure, Except.pure]
  generalize wrapInt32 (yIndex (sx x srcWidth dstWidth) (sy y srcHeight dstHeight) srcWidth)
    = i
  generalize wrapInt32
    (uvIndex (sx x srcWidth dstWidth) (sy y srcHeight dstHeight) srcWidth srcHeight) = j
  by_cases h1 : 0 ≤ i ∧ i < yuv.length
  · by_cases h2 : 0 ≤ j ∧ j < yuv.length
    · by_cases h3 : 0 ≤ wrapInt32 (j + 1) ∧ wrapInt32 (j + 1) < yuv.length
      · left
        rw [if_pos h1, if_pos h2, if_pos h3]
        exact ⟨h1, h2, h3, rfl⟩
      · right
        rw [if_pos h1, if_pos h2, if_neg h3]
        exact ⟨fun h => h3 h.2.2, rfl⟩
    · right
      rw [if_pos h1, if_neg h2]
      exact ⟨fun h => h2 h.2.1, rfl⟩
  · right
    rw [if_neg h1]
    exact ⟨fun h => h1 h.1, rfl⟩

theorem luma_chroma_regions {a b srcWidth srcHeight : Int} (ha0 : 0 ≤ a) (ha : a < srcWidth)
    (hb0 : 0 ≤ b) (hb : b < srcHeight) :
    yIndex a b srcWidth < srcWidth * srcHeight ∧
    srcWidth * srcHeight ≤ uvIndex a b srcWidth srcHeight := by
  rw [uvIndex_eq ha0 hb0]
  have h1 : (b + 1) * srcWidth ≤ srcHeight * srcWidth :=
    Int.mul_le_mul_of_nonneg_right (by omega) (by omega)
  have h3 : 0 ≤ (b / 2) * srcWidth := Int.mul_nonneg (by omega) (by omega)
  unfold yIndex
  constructor
  · nlinarith
  · omega

/-- Where the products of lines 39 and 40 fit and the frame is addressable by an `int`, the
three indices of a pixel are the exact values of their expressions at the floor
coordinates, and they lie in the luma plane and in the chroma plane. -/
theorem sample_indices_exact {srcWidth srcHeight dstWidth dstHeight x y : Int}
    (hsw : 0 < srcWidth) (hsh : 0 < srcHeight)
    (hx0 : 0 ≤ x) (hx : x < dstWidth) (hy0 : 0 ≤ y) (hy : y < dstHeight)
    (hfx : (dstWidth - 1) * srcWidth < 2 ^ 31) (hfy : (dstHeight - 1) * srcHeight < 2 ^ 31)
    (hframe : frameSize srcWidth srcHeight ≤ 2 ^ 31) :
    sx x srcWidth dstWidth = x * srcWidth / dstWidth ∧
    sy y srcHeight dstHeight = y * srcHeight / dstHeight ∧
    yIndexAt srcWidth srcHeight dstWidth dstHeight x y =
      (y * srcHeight / dstHeight) * srcWidth + x * srcWidth / dstWidth ∧
    uvIndexAt srcWidth srcHeight dstWidth dstHeight x y =
      srcWidth * srcHeight + (y * srcHeight / dstHeight / 2) * srcWidth +
        2 * (x * srcWidth / dstWidth / 2) ∧
    uIndexAt srcWidth srcHeight dstWidth dstHeight x y =
      srcWidth * srcHeight + (y * srcHeight / dstHeight / 2) * srcWidth +
        2 * (x * srcWidth / dstWidth / 2) + 1 ∧
    0 ≤ yIndexAt srcWidth srcHeight dstWidth dstHeight x y ∧
    yIndexAt srcWidth srcHeight dstWidth dstHeight x y < srcWidth * srcHeight ∧
    srcWidth * srcHeight ≤ uvIndexAt srcWidth srcHeight dstWidth dstHeight x y ∧
    uIndexAt srcWidth srcHeight dstWidth dstHeight x y < frameSize srcWidth srcHeight := by
  have ex := sx_eq_ediv hx0 hsw.le (show (0 : Int) < dstWidth by omega)
    (product_fits hx hsw.le hfx)
  have ey := sy_eq_ediv hy0 hsh.le (show (0 : Int) < dstHeight by omega)
    (product_fits hy hsh.le hfy)
  have hsx := scale_bounds hx0 hx hsw
  have hsy := scale_bounds hy0 hy hsh
  obtain ⟨h1, h2, h3, h4⟩ := index_bounds hsx.1 hsx.2 hsy.1 hsy.2
  obtain ⟨r1, r2⟩ := luma_chroma_regions hsx.1 hsx.2 hsy.1 hsy.2
  have e31 : (2 : Int) ^ 31 = 2147483648 := by norm_num
  rw [e31] at hframe
  have eY : yIndexAt srcWidth srcHeight dstWidth dstHeight x y =
      yIndex (x * srcWidth / dstWidth) (y * srcHeight / dstHeight) srcWidth := by
    unfold yIndexAt
    rw [ex, ey]
    exact wrapInt32_of_range (by rw [e31]; omega) (by rw [e31]; omega)
  have eV : uvIndexAt srcWidth srcHeight dstWidth dstHeight x y =
      uvIndex (x * srcWidth / dstWidth) (y * srcHeight / dstHeight) srcWidth srcHeight := by
    unfold uvIndexAt
    rw [ex, ey]
    exact wrapInt32_of_range (by rw [e31]; omega) (by rw [e31]; omega)
  have eU : uIndexAt srcWidth srcHeight dstWidth dstHeight x y =
      uvIndex (x * srcWidth / dstWidth) (y * srcHeight / dstHeight) srcWidth srcHeight + 1 := by
    unfold uIndexAt
    rw [eV]
    exact wrapInt32_of_range (by rw [e31]; omega) (by rw [e31]; omega)
  refine ⟨ex, ey, ?_, ?_, ?_, ?_, ?_, ?_, ?_⟩
  · rw [eY]; rfl
  · rw [eV]; exact uvIndex_eq hsx.1 hsy.1
  · rw [eU, uvIndex_eq hsx.1 hsy.1]
  · rw [eY]; exact h1
  · rw [eY]; exact r1
  · rw [eV]; exact r2
  · rw [eU]; exact h4

theorem clamp255_eq_specClamp (v : Int) : clamp255 v = specClamp v := by
  unfold clamp255 specClamp
  split_ifs <;> omega

theorem rgb_eq_specRgb (Y U V : Int) :
    (norm255 (R Y V), norm255 (G Y U V), norm255 (B Y U)) = specRgb Y U V := by
  simp only [norm255, clamp255_eq_specClamp, R, G, B, rSum, gSum, bSum, specRgb]

/-- Where no product overflows, what the code computes for a pixel is the specification's
per-pixel formula. -/
theorem pixelValue_eq_specPixel {yuv : List Int} {srcWidth srcHeight dstWidth dstHeight x y : Int}
    (hsw : 0 < srcWidth) (hsh : 0 < srcHeight)
    (hx0 : 0 ≤ x) (hx : x < dstWidth) (hy0 : 0 ≤ y) (hy : y < dstHeight)
    (hfx : (dstWidth - 1) * srcWidth < 2 ^ 31) (hfy : (dstHeight - 1) * srcHeight < 2 ^ 31)
    (hframe : frameSize srcWidth srcHeight ≤ 2 ^ 31) :
    pixelValue yuv srcWidth srcHeight dstWidth dstHeight x y =
      specPixel yuv srcWidth srcHeight dstWidth dstHeight x y := by
  obtain ⟨-, -, eY, eV, eU, -⟩ := sample_indices_exact hsw hsh hx0 hx hy0 hy hfx hfy hframe
  unfold pixelValue specPixel
  simp only [eY, eV, eU, toUnsignedChar, specByte]
  exact rgb_eq_specRgb _ _ _

/-- Where no product overflows and the buffer holds the frame, the conversion of a pixel
returns. -/
theorem convertPixel_ok {yuv : List Int} {srcWidth srcHeight dstWidth dstHeight x y : Int}
    (hsw : 0 < srcWidth) (hsh : 0 < srcHeight)
    (hx0 : 0 ≤ x) (hx : x < dstWidth) (hy0 : 0 ≤ y) (hy : y < dstHeight)
    (hfx : (dstWidth - 1) * srcWidth < 2 ^ 31) (hfy : (dstHeight - 1) * srcHeight < 2 ^ 31)
    (hframe : frameSize srcWidth srcHeight ≤ 2 ^ 31)
    (hlen : frameSize srcWidth srcHeight ≤ yuv.length) :
    convertPixel yuv srcWidth srcHeight dstWidth dstHeight x y =
      .ok (pixelValue yuv srcWidth srcHeight dstWidth dstHeight x y) := by
  obtain ⟨-, -, -, eV, eU, h1, h2, h3, h4⟩ :=
    sample_indices_exact hsw hsh hx0 hx hy0 hy hfx hfy hframe
  have h5 : uIndexAt srcWidth srcHeight dstWidth dstHeight x y =
      uvIndexAt srcWidth srcHeight dstWidth dstHeight x y + 1 := by rw [eU, eV]
  have h6 : 0 < srcWidth * srcHeight := Int.mul_pos hsw hsh
  have hY2 : yIndexAt srcWidth srcHeight dstWidth dstHeight x y <
      frameSize srcWidth srcHeight := by
    have : 0 ≤ 2 * ((srcWidth + 1) / 2) * ((srcHeight + 1) / 2) :=
      Int.mul_nonneg (by omega) (by omega)
    unfold frameSize
    omega
  rcases convertPixel_cases yuv srcWidth srcHeight dstWidth dstHeight x y with
    ⟨_, _, _, hp⟩ | ⟨hn, _⟩
  · exact hp
  · exact absurd ⟨⟨h1, by omega⟩, ⟨by omega, by omega⟩, ⟨by omega, by omega⟩⟩ hn

theorem tensorAt_set (v : List ℚ) (i j : Int) (a : ℚ) (hi0 : 0 ≤ i) (hi : i < v.length) :
    tensorAt (v.set i.toNat a) j = if j = i then some a else tensorAt v j := by
  unfold tensorAt
  by_cases hj : 0 ≤ j
  · simp only [hj, if_true, List.getElem?_set]
    by_cases hij : j = i
    · subst hij
      simp
      omega
    · have : ¬ i.toNat = j.toNat := by omega
      simp [this, hij]
  · have : j ≠ i := by omega
    simp [hj, this]

/-- Where `channelSize * 3` fits in 32 bits, the three writes of a pixel whose index lies
below `channelSize` succeed and set exactly the three plane positions of that pixel. -/
theorem storePixel_spec (v : List ℚ) (channelSize dstWidth x y : Int) (p : ℚ × ℚ × ℚ)
    (hlen : (v.length : Int) = channelSize * 3)
    (hq0 : 0 ≤ y * dstWidth + x) (hq : y * dstWidth + x < channelSize)
    (hfit : channelSize * 3 < 2 ^ 31) :
    ∃ v', storePixel v channelSize dstWidth x y p = .ok v' ∧ v'.length = v.length ∧
      ∀ j : Int, tensorAt v' j =
        if j = y * dstWidth + x + 2 * channelSize then some p.2.2
        else if j = y * dstWidth + x + channelSize then some p.2.1
        else if j = y * dstWidth + x then some p.1
        else tensorAt v j := by
  have e31 : (2 : Int) ^ 31 = 2147483648 := by norm_num
  rw [e31] at hfit
  have w1 : wrapInt32 (y * dstWidth + x) = y * dstWidth + x :=
    wrapInt32_of_range (by rw [e31]; omega) (by rw [e31]; omega)
  have w2 : wrapInt32 (y * dstWidth + x + channelSize) = y * dstWidth + x + channelSize :=
    wrapInt32_of_range (by rw [e31]; omega) (by rw [e31]; omega)
  have w3 : wrapInt32 (2 * channelSize) = 2 * channelSize :=
    wrapInt32_of_range (by rw [e31]; omega) (by rw [e31]; omega)
  have w4 : wrapInt32 (y * dstWidth + x + 2 * channelSize) =
      y * dstWidth + x + 2 * channelSize :=
    wrapInt32_of_range (by rw [e31]; omega) (by rw [e31]; omega)
  unfold storePixel writeAt
  simp only []
  rw [w1, w2, w3, w4]
  rw [if_pos ⟨hq0, by omega⟩]
  simp only [Except.bind, bind, List.length_set]
  rw [if_pos ⟨by omega, by omega⟩]
  simp only [List.length_set]
  rw [if_pos ⟨by omega, by omega⟩]
  refine ⟨_, rfl, by simp, fun j => ?_⟩
  rw [tensorAt_set _ _ _ _ (by omega) (by simp; omega),
    tensorAt_set _ _ _ _ (by omega) (by simp; omega),
    tensorAt_set _ _ _ _ (by omega) (by omega)]

theorem forLoop_invariant {σ : Type} (body : Int → σ → Except Fault σ) (Inv : Int → σ → Prop)
    (n : Nat) (i : Int) (s : σ) (h0 : Inv i s)
    (hstep : ∀ k s, i ≤ k → k < i + n → Inv k s → ∃ s', body k s = .ok s' ∧ Inv (k + 1) s') :
    ∃ s', forLoop body n i s = .ok s' ∧ Inv (i + n) s' := by
  induction n generalizing i s with
  | zero => exact ⟨s, rfl, by simpa using h0⟩
  | succ n ih =>
    obtain ⟨s1, hb, h1⟩ := hstep i s (le_refl _) (by push_cast; omega) h0
    obtain ⟨s2, hl, h2⟩ := ih (i + 1) s1 h1 (fun k s hk hk' hI =>
      hstep k s (by omega) (by push_cast; omega) hI)
    refine ⟨s2, ?_, ?_⟩
    · simp only [forLoop, hb, bind, Except.bind]
      exact hl
    · have : i + ((n + 1 : Nat) : Int) = i + 1 + n := by push_cast; ring
      rw [this]; exact h2

theorem forUpTo_invariant {σ : Type} (body : Int → σ → Except Fault σ) (Inv : Int → σ → Prop)
    (hi : Int) (s : σ) (hhi : 0 ≤ hi) (h0 : Inv 0 s)
    (hstep : ∀ k s, 0 ≤ k → k < hi → Inv k s → ∃ s', body k s = .ok s' ∧ Inv (k + 1) s') :
    ∃ s', forUpTo hi body s = .ok s' ∧ Inv hi s' := by
  obtain ⟨s', h1, h2⟩ := forLoop_invariant body Inv hi.toNat 0 s h0 (fun k s hk hk' hI =>
    hstep k s hk (by omega) hI)
  refine ⟨s', h1, ?_⟩
  have : (0 : Int) + (hi.toNat : Int) = hi := by omega
  rwa [this] at h2

theorem pixelIndex_bounds {x y dstWidth dstHeight : Int} (hx0 : 0 ≤ x) (hx : x < dstWidth)
    (hy0 : 0 ≤ y) (hy : y < dstHeight) :
    0 ≤ y * dstWidth + x ∧ y * dstWidth + x < dstWidth * dstHeight := by
  have h1 : 0 ≤ y * dstWidth := Int.mul_nonneg hy0 (by omega)
  have h2 : (y + 1) * dstWidth ≤ dstHeight * dstWidth :=
    Int.mul_le_mul_of_nonneg_right (by omega) (by omega)
  constructor
  · omega
  · nlinarith

theorem pixelIndex_inj {x y x' y' dstWidth : Int} (hx0 : 0 ≤ x) (hx : x < dstWidth)
    (hx0' : 0 ≤ x') (hx' : x' < dstWidth) (h : y * dstWidth + x = y' * dstWidth + x') :
    x = x' ∧ y = y' := by
  have hy : y = y' := by
    rcases lt_trichotomy y y' with hlt | heq | hgt
    · have : (y + 1) * dstWidth ≤ y' * dstWidth :=
        Int.mul_le_mul_of_nonneg_right (by omega) (by omega)
      nlinarith
    · exact heq
    · have : (y' + 1) * dstWidth ≤ y * dstWidth :=
        Int.mul_le_mul_of_nonneg_right (by omega) (by omega)
      nlinarith
  subst hy
  exact ⟨by omega, rfl⟩

theorem filled_init (f : Int → Int → ℚ × ℚ × ℚ) (dstWidth dstHeight : Int)
    (hw : 0 < dstWidth) (hh : 0 < dstHeight) :
    Filled f dstWidth dstHeight 0 (List.replicate (dstWidth * dstHeight * 3).toNat 0) := by
  have hcs : 0 < dstWidth * dstHeight := Int.mul_pos hw hh
  refine ⟨by simp; omega, fun x y hx0 hx hy0 hy => ?_⟩
  obtain ⟨h1, h2⟩ := pixelIndex_bounds hx0 hx hy0 hy
  have hk : ¬ y * dstWidth + x < 0 := by omega
  simp only [hk, if_false]
  unfold tensorAt
  refine ⟨?_, ?_, ?_⟩
  · rw [if_pos (by omega), List.getElem?_replicate, if_pos (by omega)]
  · rw [if_pos (by omega), List.getElem?_replicate, if_pos (by omega)]
  · rw [if_pos (by omega), List.getElem?_replicate, if_pos (by omega)]

theorem filled_step (f : Int → Int → ℚ × ℚ × ℚ) (dstWidth dstHeight x y : Int) (v : List ℚ)
    (hx0 : 0 ≤ x) (hx : x < dstWidth) (hy0 : 0 ≤ y) (hy : y < dstHeight)
    (hfit : dstWidth * dstHeight * 3 < 2 ^ 31)
    (hv : Filled f dstWidth dstHeight (y * dstWidth + x) v) :
    ∃ v', storePixel v (dstWidth * dstHeight) dstWidth x y (f x y) = .ok v' ∧
      Filled f dstWidth dstHeight (y * dstWidth + x + 1) v' := by
  obtain ⟨hlen, hfill⟩ := hv
  obtain ⟨hq0, hq⟩ := pixelIndex_bounds hx0 hx hy0 hy
  obtain ⟨v', hok, hlen', hget⟩ :=
    storePixel_spec v (dstWidth * dstHeight) dstWidth x y (f x y) hlen hq0 hq hfit
  refine ⟨v', hok, by rw [hlen']; exact hlen, fun x' y' hx0' hx' hy0' hy' => ?_⟩
  obtain ⟨hq0', hq'⟩ := pixelIndex_bounds hx0' hx' hy0' hy'
  obtain ⟨g1, g2, g3⟩ := hfill x' y' hx0' hx' hy0' hy'
  by_cases heq : y' * dstWidth + x' = y * dstWidth + x
  · obtain ⟨rfl, rfl⟩ := pixelIndex_inj hx0' hx' hx0 hx heq
    refine ⟨?_, ?_, ?_⟩
    · rw [hget, if_neg (by omega), if_neg (by omega), if_pos rfl, if_pos (by omega)]
    · rw [hget, if_neg (by omega), if_pos rfl, if_pos (by omega)]
    · rw [hget, if_pos rfl, if_pos (by omega)]
  · have hiff : (y' * dstWidth + x' < y * dstWidth + x + 1) ↔
        (y' * dstWidth + x' < y * dstWidth + x) := by omega
    simp only [hiff]
    refine ⟨?_, ?_, ?_⟩
    · rw [hget, if_neg (by omega), if_neg (by omega), if_neg heq, g1]
    · rw [hget, if_neg (by omega), if_neg (by omega), if_neg (by omega), g2]
    · rw [hget, if_neg (by omega), if_neg (by omega), if_neg (by omega), g3]

theorem convertRow_filled (yuv : List Int) (f : Int → Int → ℚ × ℚ × ℚ)
    (srcWidth srcHeight dstWidth dstHeight y : Int) (v : List ℚ)
    (hw : 0 < dstWidth) (hy0 : 0 ≤ y) (hy : y < dstHeight)
    (hfit : dstWidth * dstHeight * 3 < 2 ^ 31)
    (hf : ∀ x, 0 ≤ x → x < dstWidth →
      convertPixel yuv srcWidth srcHeight dstWidth dstHeight x y = .ok (f x y))
    (hv : Filled f dstWidth dstHeight (y * dstWidth) v) :
    ∃ v', convertRow yuv srcWidth srcHeight dstWidth dstHeight (dstWidth * dstHeight) y v
        = .ok v' ∧ Filled f dstWidth dstHeight ((y + 1) * dstWidth) v' := by
  unfold convertRow
  obtain ⟨v', h1, h2⟩ := forUpTo_invariant
    (fun x nchw => do
      let p ← convertPixel yuv srcWidth srcHeight dstWidth dstHeight x y
      storePixel nchw (dstWidth * dstHeight) dstWidth x y p)
    (fun x v => Filled f dstWidth dstHeight (y * dstWidth + x) v) dstWidth v hw.le
    (by simpa using hv)
    (fun x v hx0 hx hI => by
      obtain ⟨v', hs, hF⟩ := filled_step f dstWidth dstHeight x y v hx0 hx hy0 hy hfit hI
      refine ⟨v', ?_, ?_⟩
      · simp only [hf x hx0 hx, bind, Except.bind]
        exact hs
      · show Filled f dstWidth dstHeight (y * dstWidth + (x + 1)) v'
        rw [← Int.add_assoc]
        exact hF)
  refine ⟨v', h1, ?_⟩
  have : (y + 1) * dstWidth = y * dstWidth + dstWidth := by ring
  rw [this]; exact h2

theorem sizes_exact {dstWidth dstHeight : Int} (h0 : 0 ≤ dstWidth * dstHeight)
    (hfit : dstWidth * dstHeight * 3 < 2 ^ 31) :
    wrapInt32 (dstWidth * dstHeight) = dstWidth * dstHeight ∧
    wrapInt32 (wrapInt32 (dstWidth * dstHeight) * 3) = dstWidth * dstHeight * 3 := by
  have e31 : (2 : Int) ^ 31 = 2147483648 := by norm_num
  rw [e31] at hfit
  have w1 : wrapInt32 (dstWidth * dstHeight) = dstWidth * dstHeight :=
    wrapInt32_of_range (by rw [e31]; omega) (by rw [e31]; omega)
  rw [w1]
  exact ⟨rfl, wrapInt32_of_range (by rw [e31]; omega) (by rw [e31]; omega)⟩

/-- Where `3 * dstWidth * dstHeight` fits in 32 bits and every pixel's conversion returns,
the double loop returns the tensor in which every pixel holds its three values. -/
theorem convert_filled (yuv : List Int) (f : Int → Int → ℚ × ℚ × ℚ)
    (srcWidth srcHeight dstWidth dstHeight : Int)
    (hw : 0 < dstWidth) (hh : 0 < dstHeight)
    (hfit : dstWidth * dstHeight * 3 < 2 ^ 31)
    (hf : ∀ x y, 0 ≤ x → x < dstWidth → 0 ≤ y → y < dstHeight →
      convertPixel yuv srcWidth srcHeight dstWidth dstHeight x y = .ok (f x y)) :
    ∃ t, convert yuv srcWidth srcHeight dstWidth dstHeight = .ok t ∧
      Filled f dstWidth dstHeight (dstHeight * dstWidth) t := by
  have hcs : 0 < dstWidth * dstHeight := Int.mul_pos hw hh
  obtain ⟨w1, w2⟩ := sizes_exact hcs.le hfit
  unfold convert
  simp only []
  rw [w2, w1, if_neg (by omega)]
  exact forUpTo_invariant _ (fun y v => Filled f dstWidth dstHeight (y * dstWidth) v)
    dstHeight _ hh.le (by simpa using filled_init f dstWidth dstHeight hw hh)
    (fun y v hy0 hy hI =>
      convertRow_filled yuv f srcWidth srcHeight dstWidth dstHeight y v hw hy0 hy hfit
        (fun x hx0 hx => hf x y hx0 hx hy0 hy) hI)

theorem forLoop_preserves {σ : Type} (body : Int → σ → Except Fault σ) (P : σ → Prop)
    (hbody : ∀ k s s', body k s = .ok s' → P s → P s')
    (n : Nat) (i : Int) (s s' : σ) (h : forLoop body n i s = .ok s') (hP : P s) : P s' := by
  induction n generalizing i s with
  | zero =>
    simp only [forLoop, Except.ok.injEq] at h
    exact h ▸ hP
  | succ n ih =>
    simp only [forLoop, bind, Except.bind] at h
    cases hb : body i s with
    | error e => rw [hb] at h; cases h
    | ok s1 =>
      rw [hb] at h
      exact ih (i + 1) s1 h (hbody i s s1 hb hP)

theorem writeAt_preserves (P : List ℚ → Prop) (a : ℚ)
    (hset : ∀ v n, P v → P (v.set n a)) (v v' : List ℚ) (i : Int)
    (h : writeAt v i a = .ok v') (hP : P v) : P v' := by
  unfold writeAt at h
  split at h
  · simp only [Except.ok.injEq] at h
    exact h ▸ hset v _ hP
  · cases h

theorem writeAt_error {v : List ℚ} {i : Int} {a : ℚ} {e : Fault}
    (h : writeAt v i a = .error e) : e = .outOfBounds := by
  unfold writeAt at h
  split at h
  · cases h
  · simp only [Except.error.injEq] at h
    exact h.symm

theorem forLoop_error_kind {σ : Type} (body : Int → σ → Except Fault σ) (e0 : Fault)
    (herr : ∀ k s e, body k s = .error e → e = e0)
    (n : Nat) (i : Int) (s : σ) (e : Fault) (h : forLoop body n i s = .error e) : e = e0 := by
  induction n generalizing i s with
  | zero => simp only [forLoop] at h; cases h
  | succ n ih =>
    simp only [forLoop, bind, Except.bind] at h
    cases hb : body i s with
    | error e1 =>
      rw [hb] at h
      simp only [Except.error.injEq] at h
      rw [← h]; exact herr i s e1 hb
    | ok s1 =>
      rw [hb] at h
      exact ih (i + 1) s1 h

theorem forLoop_fails {σ : Type} (body : Int → σ → Except Fault σ) (e0 : Fault)
    (herr : ∀ k s e, body k s = .error e → e = e0)
    (n : Nat) (i : Int) (s : σ) (k0 : Int) (hk0 : i ≤ k0) (hk1 : k0 < i + n)
    (hfail : ∀ s, body k0 s = .error e0) : forLoop body n i s = .error e0 := by
  induction n generalizing i s with
  | zero => simp at hk1; omega
  | succ n ih =>
    simp only [forLoop, bind, Except.bind]
    cases hb : body i s with
    | error e1 => rw [herr i s e1 hb]
    | ok s1 =>
      simp only
      have hne : i ≠ k0 := by
        intro h
        rw [h, hfail s] at hb
        cases hb
      exact ih (i + 1) s1 (by omega) (by push_cast at hk1; omega)

theorem storePixel_preserves (P : List ℚ → Prop) (p : ℚ × ℚ × ℚ)
    (hset : ∀ v n a, (a = p.1 ∨ a = p.2.1 ∨ a = p.2.2) → P v → P (v.set n a))
    (v v' : List ℚ) (channelSize dstWidth x y : Int)
    (h : storePixel v channelSize dstWidth x y p = .ok v') (hP : P v) : P v' := by
  unfold storePixel at h
  simp only [bind, Except.bind] at h
  cases h1 : writeAt v (wrapInt32 (y * dstWidth + x)) p.1 with
  | error e => rw [h1] at h; cases h
  | ok v1 =>
    rw [h1] at h
    simp only at h
    cases h2 : writeAt v1 (wrapInt32 (wrapInt32 (y * dstWidth + x) + channelSize)) p.2.1 with
    | error e => rw [h2] at h; cases h
    | ok v2 =>
      rw [h2] at h
      simp only at h
      have P1 := writeAt_preserves P _ (fun v n => hset v n _ (Or.inl rfl)) _ _ _ h1 hP
      have P2 := writeAt_preserves P _ (fun v n => hset v n _ (Or.inr (Or.inl rfl))) _ _ _ h2 P1
      exact writeAt_preserves P _ (fun v n => hset v n _ (Or.inr (Or.inr rfl))) _ _ _ h P2

theorem storePixel_error {v : List ℚ} {channelSize dstWidth x y : Int} {p : ℚ × ℚ × ℚ}
    {e : Fault} (h : storePixel v channelSize dstWidth x y p = .error e) :
    e = .outOfBounds := by
  unfold storePixel at h
  simp only [bind, Except.bind] at h
  cases h1 : writeAt v (wrapInt32 (y * dstWidth + x)) p.1 with
  | error e1 =>
    rw [h1] at h
    simp only [Except.error.injEq] at h
    rw [← h]; exact writeAt_error h1
  | ok v1 =>
    rw [h1] at h
    simp only at h
    cases h2 : writeAt v1 (wrapInt32 (wrapInt32 (y * dstWidth + x) + channelSize)) p.2.1 with
    | error e2 =>
      rw [h2] at h
      simp only [Except.error.injEq] at h
      rw [← h]; exact writeAt_error h2
    | ok v2 =>
      rw [h2] at h
      exact writeAt_error h

theorem writeAt_neg (v : List ℚ) (i : Int) (a : ℚ) (hi : i < 0) :
    writeAt v i a = .error .outOfBounds := by
  unfold writeAt
  rw [if_neg (by omega)]

/-- A pixel one of whose three write indices is negative cannot be stored, whatever the
vector is. -/
theorem storePixel_fails (v : List ℚ) (channelSize dstWidth x y : Int) (p : ℚ × ℚ × ℚ)
    (hneg : wrapInt32 (y * dstWidth + x) < 0 ∨
      wrapInt32 (wrapInt32 (y * dstWidth + x) + channelSize) < 0 ∨
      wrapInt32 (wrapInt32 (y * dstWidth + x) + wrapInt32 (2 * channelSize)) < 0) :
    storePixel v channelSize dstWidth x y p = .error .outOfBounds := by
  cases hs : storePixel v channelSize dstWidth x y p with
  | error e => rw [storePixel_error hs]
  | ok v' =>
    exfalso
    unfold storePixel at hs
    simp only [bind, Except.bind] at hs
    cases h1 : writeAt v (wrapInt32 (y * dstWidth + x)) p.1 with
    | error e => rw [h1] at hs; cases hs
    | ok v1 =>
      rw [h1] at hs
      simp only at hs
      cases h2 : writeAt v1 (wrapInt32 (wrapInt32 (y * dstWidth + x) + channelSize)) p.2.1 with
      | error e => rw [h2] at hs; cases hs
      | ok v2 =>
        rw [h2] at hs
        simp only at hs
        rcases hneg with hn | hn | hn
        · rw [writeAt_neg _ _ _ hn] at h1; cases h1
        · rw [writeAt_neg _ _ _ hn] at h2; cases h2
        · rw [writeAt_neg _ _ _ hn] at hs; cases hs

theorem convertPixel_norm {yuv : List Int} {srcWidth srcHeight dstWidth dstHeight x y : Int}
    {p : ℚ × ℚ × ℚ}
    (h : convertPixel yuv srcWidth srcHeight dstWidth dstHeight x y = .ok p) :
    ∃ r g b : Int, p = (norm255 r, norm255 g, norm255 b) := by
  rcases convertPixel_cases yuv srcWidth srcHeight dstWidth dstHeight x y with
    ⟨_, _, _, hp⟩ | ⟨_, hp⟩
  · rw [hp] at h
    simp only [Except.ok.injEq] at h
    exact ⟨_, _, _, h.symm⟩
  · rw [hp] at h
    cases h

/-- A property of the vector that the allocation establishes and every write of a clamped
value keeps holds of every tensor the conversion returns. -/
theorem convert_preserves (P : List ℚ → Prop)
    (hset : ∀ v n (k : Int), P v → P (v.set n (norm255 k)))
    (yuv : List Int) (srcWidth srcHeight dstWidth dstHeight : Int) (t : List ℚ)
    (h : convert yuv srcWidth srcHeight dstWidth dstHeight = .ok t)
    (h0 : P (List.replicate (wrapInt32 (wrapInt32 (dstWidth * dstHeight) * 3)).toNat 0)) :
    P t := by
  unfold convert at h
  simp only at h
  split at h
  · cases h
  · refine forLoop_preserves _ P (fun y v v' hrow hv => ?_) _ _ _ _ h h0
    unfold convertRow forUpTo at hrow
    refine forLoop_preserves _ P (fun x w w' hpix hw => ?_) _ _ _ _ hrow hv
    simp only [bind, Except.bind] at hpix
    cases hp : convertPixel yuv srcWidth srcHeight dstWidth dstHeight x y with
    | error e => rw [hp] at hpix; cases hpix
    | ok p =>
      rw [hp] at hpix
      simp only at hpix
      obtain ⟨r, g, b, rfl⟩ := convertPixel_norm hp
      refine storePixel_preserves P _ (fun v n a ha hv => ?_) _ _ _ _ _ _ hpix hw
      rcases ha with rfl | rfl | rfl <;> exact hset v n _ hv

theorem convertRow_error {yuv : List Int}
    {srcWidth srcHeight dstWidth dstHeight channelSize y : Int} {v : List ℚ} {e : Fault}
    (h : convertRow yuv srcWidth srcHeight dstWidth dstHeight channelSize y v = .error e) :
    e = .outOfBounds := by
  unfold convertRow forUpTo at h
  refine forLoop_error_kind _ .outOfBounds (fun k s e1 hb => ?_) _ _ _ _ h
  simp only [bind, Except.bind] at hb
  rcases convertPixel_cases yuv srcWidth srcHeight dstWidth dstHeight k y with
    ⟨_, _, _, hp⟩ | ⟨_, hp⟩
  · rw [hp] at hb
    exact storePixel_error hb
  · rw [hp] at hb
    simp only [Except.error.injEq] at hb
    exact hb.symm

/-- A pixel whose conversion or whose writes fail on every vector makes the whole
conversion read or write outside a buffer, once the allocation has succeeded. -/
theorem convert_fails_of_body (yuv : List Int) (srcWidth srcHeight dstWidth dstHeight x y : Int)
    (hx0 : 0 ≤ x) (hx : x < dstWidth) (hy0 : 0 ≤ y) (hy : y < dstHeight)
    (halloc : ¬ wrapInt32 (wrapInt32 (dstWidth * dstHeight) * 3) < 0)
    (hbody : ∀ w : List ℚ,
      (convertPixel yuv srcWidth srcHeight dstWidth dstHeight x y >>= fun p =>
        storePixel w (wrapInt32 (dstWidth * dstHeight)) dstWidth x y p) =
          .error .outOfBounds) :
    convert yuv srcWidth srcHeight dstWidth dstHeight = .error .outOfBounds := by
  unfold convert
  simp only []
  rw [if_neg halloc]
  unfold forUpTo
  refine forLoop_fails _ .outOfBounds (fun k s e h => convertRow_error h) _ _ _ y hy0
    (by omega) (fun v => ?_)
  unfold convertRow forUpTo
  refine forLoop_fails _ .outOfBounds (fun k s e1 hb => ?_) _ _ _ x hx0 (by omega)
    (fun w => hbody w)
  simp only [bind, Except.bind] at hb
  rcases convertPixel_cases yuv srcWidth srcHeight dstWidth dstHeight k y with
    ⟨_, _, _, hq⟩ | ⟨_, hq⟩
  · rw [hq] at hb
    exact storePixel_error hb
  · rw [hq] at hb
    simp only [Except.error.injEq] at hb
    exact hb.symm

/-- A pixel whose conversion reads outside the buffer makes the whole conversion do so. -/
theorem convert_fails (yuv : List Int) (srcWidth srcHeight dstWidth dstHeight x y : Int)
    (hx0 : 0 ≤ x) (hx : x < dstWidth) (hy0 : 0 ≤ y) (hy : y < dstHeight)
    (halloc : ¬ wrapInt32 (wrapInt32 (dstWidth * dstHeight) * 3) < 0)
    (hp : convertPixel yuv srcWidth srcHeight dstWidth dstHeight x y = .error .outOfBounds) :
    convert yuv srcWidth srcHeight dstWidth dstHeight = .error .outOfBounds :=
  convert_fails_of_body yuv srcWidth srcHeight dstWidth dstHeight x y hx0 hx hy0 hy halloc
    (fun w => by rw [hp]; rfl)

theorem index_decompose {i dstWidth dstHeight : Int} (hdw : 0 < dstWidth) (hdh : 0 < dstHeight)
    (hi0 : 0 ≤ i) (hi : i < dstWidth * dstHeight * 3) :
    ∃ x y : Int, 0 ≤ x ∧ x < dstWidth ∧ 0 ≤ y ∧ y < dstHeight ∧
      (i = y * dstWidth + x ∨ i = y * dstWidth + x + dstWidth * dstHeight ∨
        i = y * dstWidth + x + 2 * (dstWidth * dstHeight)) := by
  have hcs : 0 < dstWidth * dstHeight := Int.mul_pos hdw hdh
  have hr0 := Int.emod_nonneg i (ne_of_gt hcs)
  have hr1 := Int.emod_lt_of_pos i hcs
  have hc := Int.ediv_add_emod i (dstWidth * dstHeight)
  have hx0 := Int.emod_nonneg (i % (dstWidth * dstHeight)) (ne_of_gt hdw)
  have hx1 := Int.emod_lt_of_pos (i % (dstWidth * dstHeight)) hdw
  have hxy := Int.ediv_add_emod (i % (dstWidth * dstHeight)) dstWidth
  have hy0 : 0 ≤ i % (dstWidth * dstHeight) / dstWidth := Int.ediv_nonneg hr0 hdw.le
  have hy1 : i % (dstWidth * dstHeight) / dstWidth < dstHeight :=
    Int.ediv_lt_of_lt_mul hdw (by rw [Int.mul_comm dstHeight]; exact hr1)
  have hq0 : 0 ≤ i / (dstWidth * dstHeight) := Int.ediv_nonneg hi0 hcs.le
  have hq1 : i / (dstWidth * dstHeight) < 3 := Int.ediv_lt_of_lt_mul hcs (by linarith)
  refine ⟨i % (dstWidth * dstHeight) % dstWidth, i % (dstWidth * dstHeight) / dstWidth,
    hx0, hx1, hy0, hy1, ?_⟩
  have hxy' : i % (dstWidth * dstHeight) / dstWidth * dstWidth +
      i % (dstWidth * dstHeight) % dstWidth = i % (dstWidth * dstHeight) := by
    rw [Int.mul_comm]; exact hxy
  rw [hxy']
  have h3 : i / (dstWidth * dstHeight) = 0 ∨ i / (dstWidth * dstHeight) = 1 ∨
      i / (dstWidth * dstHeight) = 2 := by omega
  rcases h3 with h | h | h <;> rw [h] at hc
  · left; linarith
  · right; left; linarith
  · right; right; linarith

theorem convert_alloc {yuv : List Int} {srcWidth srcHeight dstWidth dstHeight : Int}
    {t : List ℚ} (h : convert yuv srcWidth srcHeight dstWidth dstHeight = .ok t) :
    ¬ wrapInt32 (wrapInt32 (dstWidth * dstHeight) * 3) < 0 := by
  intro hneg
  unfold convert at h
  simp only [] at h
  rw [if_pos hneg] at h
  cases h

/-- A conversion with positive destination dimensions that returns a tensor has not
overflowed lines 32-33: when `3 * dstWidth * dstHeight` does not fit in 32 bits some write
index wraps to a negative value and the write is outside the vector. -/
theorem convert_ok_fits {yuv : List Int} {srcWidth srcHeight dstWidth dstHeight : Int}
    {t : List ℚ} (hdw : 0 < dstWidth) (hdh : 0 < dstHeight)
    (h : convert yuv srcWidth srcHeight dstWidth dstHeight = .ok t) :
    dstWidth * dstHeight * 3 < 2 ^ 31 := by
  by_contra hge
  have e31 : (2 : Int) ^ 31 = 2147483648 := by norm_num
  rw [e31] at hge
  have hbig : (2147483648 : Int) < dstWidth * dstHeight * 3 := by omega
  obtain ⟨x, y, hx0, hx, hy0, hy, hcase⟩ :=
    index_decompose hdw hdh (by decide : (0 : Int) ≤ 2147483648) hbig
  have hfail : ∀ (w : List ℚ) (p : ℚ × ℚ × ℚ),
      storePixel w (wrapInt32 (dstWidth * dstHeight)) dstWidth x y p = .error .outOfBounds := by
    intro w p
    apply storePixel_fails
    rcases hcase with hc | hc | hc
    · left
      rw [← hc]
      decide
    · right; left
      have : wrapInt32 (wrapInt32 (y * dstWidth + x) + wrapInt32 (dstWidth * dstHeight)) =
          wrapInt32 2147483648 := by
        rw [wrapInt32_add, ← hc]
      rw [this]
      decide
    · right; right
      have : wrapInt32 (wrapInt32 (y * dstWidth + x) +
          wrapInt32 (2 * wrapInt32 (dstWidth * dstHeight))) = wrapInt32 2147483648 := by
        rw [wrapInt32_add]
        apply wrapInt32_congr
        have hm := wrapInt32_emod (dstWidth * dstHeight)
        norm_num at hm ⊢
        omega
      rw [this]
      decide
  have hconv := convert_fails_of_body yuv srcWidth srcHeight dstWidth dstHeight x y hx0 hx
    hy0 hy (convert_alloc h) (fun w => by
      rcases convertPixel_cases yuv srcWidth srcHeight dstWidth dstHeight x y with
        ⟨_, _, _, hp⟩ | ⟨_, hp⟩
      · rw [hp]
        exact hfail w _
      · rw [hp]
        rfl)
  rw [hconv] at h
  cases h

/-- What a returned tensor holds, for any source dimensions and buffer: no product of lines
32-33 has overflowed, the tensor has `3 * dstWidth * dstHeight` elements, every pixel's
three reads were inside the buffer, and the three plane positions of every pixel hold the
values computed from the bytes at the indices of that pixel. -/
theorem convert_ok_spec {yuv : List Int} {srcWidth srcHeight dstWidth dstHeight : Int}
    {t : List ℚ} (hdw : 0 < dstWidth) (hdh : 0 < dstHeight)
    (h : convert yuv srcWidth srcHeight dstWidth dstHeight = .ok t) :
    dstWidth * dstHeight * 3 < 2 ^ 31 ∧ (t.length : Int) = dstWidth * dstHeight * 3 ∧
    ∀ x y : Int, 0 ≤ x → x < dstWidth → 0 ≤ y → y < dstHeight →
      convertPixel yuv srcWidth srcHeight dstWidth dstHeight x y =
        .ok (pixelValue yuv srcWidth srcHeight dstWidth dstHeight x y) ∧
      tensorAt t (y * dstWidth + x) =
        some (pixelValue yuv srcWidth srcHeight dstWidth dstHeight x y).1 ∧
      tensorAt t (y * dstWidth + x + dstWidth * dstHeight) =
        some (pixelValue yuv srcWidth srcHeight dstWidth dstHeight x y).2.1 ∧
      tensorAt t (y * dstWidth + x + 2 * (dstWidth * dstHeight)) =
        some (pixelValue yuv srcWidth srcHeight dstWidth dstHeight x y).2.2 := by
  have hfit := convert_ok_fits hdw hdh h
  have hpix : ∀ x y : Int, 0 ≤ x → x < dstWidth → 0 ≤ y → y < dstHeight →
      convertPixel yuv srcWidth srcHeight dstWidth dstHeight x y =
        .ok (pixelValue yuv srcWidth srcHeight dstWidth dstHeight x y) := by
    intro x y hx0 hx hy0 hy
    rcases convertPixel_cases yuv srcWidth srcHeight dstWidth dstHeight x y with
      ⟨_, _, _, hp⟩ | ⟨_, hp⟩
    · exact hp
    · have hconv := convert_fails yuv srcWidth srcHeight dstWidth dstHeight x y hx0 hx hy0 hy
        (convert_alloc h) hp
      rw [hconv] at h
      cases h
  obtain ⟨t', hok, hl, hfill⟩ := convert_filled yuv
    (pixelValue yuv srcWidth srcHeight dstWidth dstHeight) srcWidth srcHeight dstWidth
    dstHeight hdw hdh hfit hpix
  rw [h] at hok
  simp only [Except.ok.injEq] at hok
  subst hok
  refine ⟨hfit, hl, fun x y hx0 hx hy0 hy => ?_⟩
  obtain ⟨g1, g2, g3⟩ := hfill x y hx0 hx hy0 hy
  have hq := (pixelIndex_bounds hx0 hx hy0 hy).2
  have hlt : y * dstWidth + x < dstHeight * dstWidth := by
    rw [Int.mul_comm dstHeight]; exact hq
  rw [if_pos hlt] at g1 g2 g3
  exact ⟨hpix x y hx0 hx hy0 hy, g1, g2, g3⟩

/-- Where no product overflows and the buffer holds the frame, the conversion returns the
tensor of `3 * dstWidth * dstHeight` elements that holds the specification's per-pixel
formula at the three plane positions of every pixel. -/
theorem convert_valid (yuv : List Int) (srcWidth srcHeight dstWidth dstHeight : Int)
    (hsw : 0 < srcWidth) (hsh : 0 < srcHeight) (hdw : 0 < dstWidth) (hdh : 0 < dstHeight)
    (hfx : (dstWidth - 1) * srcWidth < 2 ^ 31) (hfy : (dstHeight - 1) * srcHeight < 2 ^ 31)
    (hfit : 3 * dstWidth * dstHeight < 2 ^ 31)
    (hframe : frameSize srcWidth srcHeight ≤ 2 ^ 31)
    (hlen : frameSize srcWidth srcHeight ≤ yuv.length) :
    ∃ t, convert yuv srcWidth srcHeight dstWidth dstHeight = .ok t ∧
      (t.length : Int) = 3 * dstWidth * dstHeight ∧
      ∀ x y : Int, 0 ≤ x → x < dstWidth → 0 ≤ y → y < dstHeight →
        tensorAt t (y * dstWidth + x) =
          some (specPixel yuv srcWidth srcHeight dstWidth dstHeight x y).1 ∧
        tensorAt t (dstWidth * dstHeight + y * dstWidth + x) =
          some (specPixel yuv srcWidth srcHeight dstWidth dstHeight x y).2.1 ∧
        tensorAt t (2 * dstWidth * dstHeight + y * dstWidth + x) =
          some (specPixel yuv srcWidth srcHeight dstWidth dstHeight x y).2.2 := by
  have e3 : dstWidth * dstHeight * 3 = 3 * dstWidth * dstHeight := by ring
  obtain ⟨t, hok, -, -⟩ := convert_filled yuv
    (pixelValue yuv srcWidth srcHeight dstWidth dstHeight) srcWidth srcHeight dstWidth dstHeight
    hdw hdh (by rw [e3]; exact hfit)
    (fun x y hx0 hx hy0 hy => convertPixel_ok hsw hsh hx0 hx hy0 hy hfx hfy hframe hlen)
  obtain ⟨-, hl, hval⟩ := convert_ok_spec hdw hdh hok
  refine ⟨t, hok, by rw [hl, e3], fun x y hx0 hx hy0 hy => ?_⟩
  obtain ⟨-, g1, g2, g3⟩ := hval x y hx0 hx hy0 hy
  rw [pixelValue_eq_specPixel hsw hsh hx0 hx hy0 hy hfx hfy hframe] at g1 g2 g3
  have e2 : dstWidth * dstHeight + y * dstWidth + x =
      y * dstWidth + x + dstWidth * dstHeight := by ring
  have e4 : 2 * dstWidth * dstHeight + y * dstWidth + x =
      y * dstWidth + x + 2 * (dstWidth * dstHeight) := by ring
  rw [e2, e4]
  exact ⟨g1, g2, g3⟩

/-! ## The overflowing inputs -/

/-- At `srcWidth = 46341`, `dstWidth = 46342` the product of line 39 overflows in the last
column: `sx` is negative there, the luma read is outside the buffer, and no tensor is
returned whatever the buffer is. -/
theorem convert_fails_46341 (yuv : List Int) :
    convert yuv 46341 1 46342 1 = .error .outOfBounds := by
  refine convert_fails yuv 46341 1 46342 1 46341 0 (by decide) (by decide) (by decide)
    (by decide) (by decide) ?_
  rcases convertPixel_cases yuv 46341 1 46342 1 46341 0 with ⟨h1, _⟩ | ⟨_, hp⟩
  · have hneg : yIndexAt 46341 1 46342 1 46341 0 = -46339 := by decide
    rw [hneg] at h1
    omega
  · exact hp

/-- At identity scale with the even width 46342 the product of line 39 overflows in the
last column and no tensor is returned whatever the buffer is. -/
theorem convert_fails_46342 (yuv : List Int) :
    convert yuv 46342 1 46342 1 = .error .outOfBounds := by
  refine convert_fails yuv 46342 1 46342 1 46341 0 (by decide) (by decide) (by decide)
    (by decide) (by decide) ?_
  rcases convertPixel_cases yuv 46342 1 46342 1 46341 0 with ⟨h1, _⟩ | ⟨_, hp⟩
  · have hneg : yIndexAt 46342 1 46342 1 46341 0 = -46338 := by decide
    rw [hneg] at h1
    omega
  · exact hp

/-- At the destination `2 x 715827883` line 33 overflows: `totalSize` is 2, and the blue
write of pixel `(0, 0)` has a negative index, so no tensor is returned whatever the source
is. -/
theorem convert_fails_totalSize (yuv : List Int) (srcWidth srcHeight : Int) :
    convert yuv srcWidth srcHeight 2 715827883 = .error .outOfBounds := by
  refine convert_fails_of_body yuv srcWidth srcHeight 2 715827883 0 0 (by decide) (by decide)
    (by decide) (by decide) (by decide) (fun w => ?_)
  rcases convertPixel_cases yuv srcWidth srcHeight 2 715827883 0 0 with
    ⟨_, _, _, hp⟩ | ⟨_, hp⟩
  · rw [hp]
    exact storePixel_fails w _ 2 0 0 _ (Or.inr (Or.inr (by decide)))
  · rw [hp]
    rfl

/-- C1, the code at a failing input: a 46341x1 frame has 92683 bytes; converted to 46342x1,
line 39 gives `sx = -46339` in the last column where the formula samples column 46340, the
luma index is `-46339`, and for every source buffer the conversion reads outside it and
returns no tensor. -/
theorem pixel_formula_overflow :
    (46341 : Int) * 1 + 2 * ((46341 + 1) / 2) * ((1 + 1) / 2) = 92683 ∧
    sx 46341 46341 46342 = -46339 ∧ (46341 : Int) * 46341 / 46342 = 46340 ∧
    yIndexAt 46341 1 46342 1 46341 0 = -46339 ∧
    ∀ source : List Int,
      yuvToNchwFloats (some source) 46341 1 46342 1 = .error .outOfBounds :=
  ⟨by decide, by decide, by decide, by decide, fun source => convert_fails_46341 source⟩

/-- C4, the code at a failing input: for `srcWidth = 46341`, `srcHeight = 1`,
`dstWidth = 46342`, `dstHeight = 1` and the destination pixel `(46341, 0)`, the sampled
column `sx` and the luma index are `-46339`, not in `[0, srcWidth)`, and the luma read is
outside every buffer. -/
theorem sample_index_overflow :
    sx 46341 46341 46342 = -46339 ∧ ¬ (0 ≤ sx 46341 46341 46342) ∧
    sy 0 1 1 = 0 ∧ yIndexAt 46341 1 46342 1 46341 0 = -46339 ∧
    ∀ yuv : List Int,
      readByte yuv (yIndexAt 46341 1 46342 1 46341 0) = .error .outOfBounds ∧
      convertPixel yuv 46341 1 46342 1 46341 0 = .error .outOfBounds := by
  refine ⟨by decide, by decide, by decide, by decide, fun yuv => ⟨?_, ?_⟩⟩
  · have hneg : yIndexAt 46341 1 46342 1 46341 0 = -46339 := by decide
    rw [hneg]
    unfold readByte
    rw [if_neg (by omega)]
  · rcases convertPixel_cases yuv 46341 1 46342 1 46341 0 with ⟨h1, _⟩ | ⟨_, hp⟩
    · have hneg : yIndexAt 46341 1 46342 1 46341 0 = -46339 := by decide
      rw [hneg] at h1
      omega
    · exact hp

/-- C7, the code at a failing input: the even width 46342 at identity scale (a 46342x1
frame of 92684 bytes converted to 46342x1); in the last column line 39 gives
`sx = -46338`, the luma index is `-46338` and not `0*46342 + 46341`, and for every source
buffer the conversion reads outside it and returns no tensor. -/
theorem chroma_alignment_overflow :
    (46342 : Int) % 2 = 0 ∧
    (46342 : Int) * 1 + 2 * ((46342 + 1) / 2) * ((1 + 1) / 2) = 92684 ∧
    sx 46341 46342 46342 = -46338 ∧
    yIndexAt 46342 1 46342 1 46341 0 = -46338 ∧
    yIndexAt 46342 1 46342 1 46341 0 ≠ 0 * 46342 + 46341 ∧
    uvIndexAt 46342 1 46342 1 46341 0 ≠ specChromaOffset 46342 1 (46341 / 2) (0 / 2) ∧
    ∀ source : List Int,
      yuvToNchwFloats (some source) 46342 1 46342 1 = .error .outOfBounds :=
  ⟨by decide, by decide, by decide, by decide, by decide, by decide,
    fun source => convert_fails_46342 source⟩

/-- C8, the code at a failing input: with `dstWidth = srcWidth = 46342` and `x = 46341` the
product `x * srcWidth = 2147534622` exceeds `2^31 - 1`; line 39 gives `sx = -46338`, not
`x`, and the luma index is `-46338`, not `y*srcWidth + x`. -/
theorem identity_scaling_overflow :
    (46341 : Int) * 46342 = 2147534622 ∧ (2 : Int) ^ 31 - 1 < 2147534622 ∧
    wrapInt32 (46341 * 46342) = -2147432674 ∧
    sx 46341 46342 46342 = -46338 ∧ sx 46341 46342 46342 ≠ 46341 ∧
    sy 0 1 1 = 0 ∧
    yIndexAt 46342 1 46342 1 46341 0 = -46338 ∧
    yIndexAt 46342 1 46342 1 46341 0 ≠ 0 * 46342 + 46341 := by
  decide

/-- C9, the code at a failing input: a 1x1 white frame (luma 235, chroma 128, as `jbyte`
values) converted to `2 x 715827883`; `channelSize` is 1431655766, `totalSize` wraps to 2,
the green write of pixel `(0, 0)` has index 1431655766, and the conversion writes outside
the two-element vector in place of returning the all-ones tensor. -/
theorem white_fixture_overflow :
    specByte [-21, -128, -128] 0 = 235 ∧ specByte [-21, -128, -128] 1 = 128 ∧
    specByte [-21, -128, -128] 2 = 128 ∧
    (3 : Int) * 2 * 715827883 = 4294967298 ∧
    wrapInt32 (2 * 715827883) = 1431655766 ∧ wrapInt32 (1431655766 * 3) = 2 ∧
    wrapInt32 (wrapInt32 (0 * 2 + 0) + 1431655766) = 1431655766 ∧
    yuvToNchwFloats (some [-21, -128, -128]) 1 1 2 715827883 = .error .outOfBounds :=
  ⟨by decide, by decide, by decide, by decide, by decide, by decide, by decide,
    convert_fails_totalSize _ 1 1⟩

/-- C10, the code at a failing input: the 46341x1 black frame (46341 luma bytes 16, 46342
chroma bytes 128, as `jbyte` values) converted to 46342x1; line 39 overflows in the last
column and the conversion reads `yuv[-46339]` in place of returning the all-zero
tensor. -/
theorem black_fixture_overflow :
    sx 46341 46341 46342 = -46339 ∧ yIndexAt 46341 1 46342 1 46341 0 = -46339 ∧
    yuvToNchwFloats (some (List.replicate 46341 16 ++ List.replicate 46342 (-128)))
      46341 1 46342 1 = .error .outOfBounds :=
  ⟨by decide, by decide, convert_fails_46341 _⟩

/-- C18, the code at a failing input: with `srcWidth = 46341 ≤ dstWidth = 46342` the column
map of line 39 gives 46339 at `x = 46340` and `-46339` at `x = 46341`, so it decreases, and
no destination column is sampled from source column 46340. -/
theorem upscale_overflow :
    (46341 : Int) ≤ 46342 ∧
    sx 46340 46341 46342 = 46339 ∧ sx 46341 46341 46342 = -46339 ∧
    ¬ (sx 46340 46341 46342 ≤ sx 46341 46341 46342) ∧
    ∀ x : Int, 0 ≤ x → x < 46342 → sx x 46341 46342 ≠ 46340 := by
  refine ⟨by decide, by decide, by decide, by decide, fun x hx0 hx => ?_⟩
  by_cases hlast : x = 46341
  · rw [hlast]
    decide
  · have hfit : x * 46341 < 2 ^ 31 := by norm_num; omega
    rw [sx_eq_ediv hx0 (by decide) (by decide) hfit]
    omega

/-! ## The coordinate expressions in 32-bit arithmetic -/

/-- C5, the code at the failing input: with `srcWidth = 46341`, `dstWidth = 46342` (both
positive 32-bit values) and `x = 46341 < dstWidth`, the product `x * srcWidth` exceeds
`2^31 - 1`; the wrapped 32-bit expression of line 39 gives `-46339` while
`floor(x*srcWidth/dstWidth)` is `46340`. -/
theorem sx32_overflow :
    (0 : Int) < 46341 ∧ (46342 : Int) < 2 ^ 31 ∧ (46341 : Int) < 46342 ∧
    sx32 46341 46341 46342 = -46339 ∧ (46341 : Int) * 46341 / 46342 = 46340 ∧
    sx32 46341 46341 46342 ≠ (46341 : Int) * 46341 / 46342 := by
  decide

/-! ## The chroma plane -/

/-- C6 refuted: in a 3x3 frame the pixel `(sx, sy) = (0, 2)` lies inside the frame, and the
code reads its `V` byte at offset 12 while the chroma sample of column `0/2`, row `2/2` of
the data model starts at offset 13. -/
theorem uvIndex_odd_width_counterexample :
    (0 : Int) < 3 ∧ (0 : Int) ≤ 0 ∧ (0 : Int) < 3 ∧ (0 : Int) ≤ 2 ∧ (2 : Int) < 3 ∧
    uvIndex 0 2 3 3 = 12 ∧ specChromaOffset 3 3 (0 / 2) (2 / 2) = 13 ∧
    uvIndex 0 2 3 3 ≠ specChromaOffset 3 3 (0 / 2) (2 / 2) := by
  decide

/-- The code's chroma offset, of row stride `srcWidth`, is the data model's offset of
chroma cell `(a/2, b/2)` exactly when `srcWidth` is even or the pixel lies in rows 0, 1. -/
theorem uvIndex_eq_specChromaOffset_iff {srcWidth srcHeight a b : Int}
    (ha0 : 0 ≤ a) (hb0 : 0 ≤ b) :
    uvIndex a b srcWidth srcHeight = specChromaOffset srcWidth srcHeight (a / 2) (b / 2) ↔
      (srcWidth % 2 = 0 ∨ b < 2) := by
  rw [uvIndex_eq ha0 hb0]
  unfold specChromaOffset
  have hsplit : 2 * (b / 2 * ((srcWidth + 1) / 2) + a / 2) =
      b / 2 * (2 * ((srcWidth + 1) / 2)) + 2 * (a / 2) := by ring
  rcases Int.emod_two_eq_zero_or_one srcWidth with hw | hw
  · have h2 : 2 * ((srcWidth + 1) / 2) = srcWidth := by omega
    rw [hsplit, h2]
    exact ⟨fun _ => Or.inl hw, fun _ => by ring⟩
  · have h2 : 2 * ((srcWidth + 1) / 2) = srcWidth + 1 := by omega
    have h3 : b / 2 * (srcWidth + 1) + 2 * (a / 2) =
        b / 2 * srcWidth + b / 2 + 2 * (a / 2) := by ring
    rw [hsplit, h2, h3]
    constructor
    · intro h; right; omega
    · rintro (h | h)
      · omega
      · have : b / 2 = 0 := by omega
        rw [this]; ring

/-- C6 amended: for positive dimensions and a source pixel `(sx, sy)` inside the frame the
code reads `V` at `srcWidth*srcHeight + (sy/2)*srcWidth + 2*(sx/2)`, with row stride
`srcWidth`, and `U` at the next byte; this is the first byte of the chroma sample of
column `sx/2`, row `sy/2` of the data model exactly when `srcWidth` is even or `sy < 2`,
in particular for every even `srcWidth`. -/
theorem uvIndex_chroma_cell (srcWidth srcHeight a b : Int)
    (_hsw : 0 < srcWidth) (_hsh : 0 < srcHeight)
    (ha0 : 0 ≤ a) (_ha : a < srcWidth) (hb0 : 0 ≤ b) (_hb : b < srcHeight) :
    uvIndex a b srcWidth srcHeight = srcWidth * srcHeight + (b / 2) * srcWidth + 2 * (a / 2) ∧
    (uvIndex a b srcWidth srcHeight = specChromaOffset srcWidth srcHeight (a / 2) (b / 2) ↔
      (srcWidth % 2 = 0 ∨ b < 2)) ∧
    (srcWidth % 2 = 0 →
      uvIndex a b srcWidth srcHeight = specChromaOffset srcWidth srcHeight (a / 2) (b / 2)) :=
  ⟨uvIndex_eq ha0 hb0, uvIndex_eq_specChromaOffset_iff ha0 hb0,
    fun hw => (uvIndex_eq_specChromaOffset_iff ha0 hb0).2 (Or.inl hw)⟩

/-- Witness of the amended C6: a pixel of a 4x4 frame. -/
theorem uvIndex_chroma_cell_witness :
    uvIndex 3 2 4 4 = 4 * 4 + (2 / 2) * 4 + 2 * (3 / 2) ∧
    (uvIndex 3 2 4 4 = specChromaOffset 4 4 (3 / 2) (2 / 2) ↔ ((4 : Int) % 2 = 0 ∨ (2 : Int) < 2)) ∧
    ((4 : Int) % 2 = 0 → uvIndex 3 2 4 4 = specChromaOffset 4 4 (3 / 2) (2 / 2)) :=
  uvIndex_chroma_cell 4 4 3 2 (by decide) (by decide) (by decide) (by decide) (by decide)
    (by decide)

/-! ## The colour arithmetic -/

theorem shiftRight8_eq_ediv (v : Int) : v >>> (8 : Nat) = v / 256 := by
  rw [Int.shiftRight_eq_div_pow]
  norm_num

theorem tdiv256_cases (v : Int) :
    (0 ≤ v ∧ Int.tdiv v 256 = v / 256) ∨ (v < 0 ∧ Int.tdiv v 256 ≤ 0 ∧ v / 256 < 0) := by
  rcases Int.lt_or_le v 0 with h | h
  · right
    refine ⟨h, ?_, by omega⟩
    have hneg : Int.tdiv v 256 = -(Int.tdiv (-v) 256) := by
      rw [Int.neg_tdiv, Int.neg_neg]
    rw [hneg, Int.tdiv_eq_ediv (by omega) (by decide)]
    omega
  · left
    exact ⟨h, Int.tdiv_eq_ediv h (by decide)⟩

theorem clamp255_shift_eq_tdiv (v : Int) :
    clamp255 (v >>> (8 : Nat)) = clamp255 (Int.tdiv v 256) := by
  rw [shiftRight8_eq_ediv]
  rcases tdiv256_cases v with ⟨_, h⟩ | ⟨_, h1, h2⟩
  · rw [h]
  · unfold clamp255
    rw [if_pos h2]
    split_ifs <;> omega

/-- C15: for every integer `v`, clamping `v >> 8` (arithmetic shift) and clamping `v / 256`
(division truncating toward zero) to `[0, 255]` give the same value; so each of the three
channel values of a pixel is unchanged when `>> 8` is replaced by `/ 256`, for all
samples. -/
theorem shift_vs_truncating_division :
    (∀ v : Int, clamp255 (v >>> (8 : Nat)) = clamp255 (Int.tdiv v 256)) ∧
    (∀ Y U V : Int, norm255 (R Y V) = norm255 (RDiv Y V) ∧
      norm255 (G Y U V) = norm255 (GDiv Y U V) ∧ norm255 (B Y U) = norm255 (BDiv Y U)) ∧
    (∃ v : Int, v >>> (8 : Nat) ≠ Int.tdiv v 256) := by
  refine ⟨clamp255_shift_eq_tdiv, fun Y U V => ?_, ⟨-1, by decide⟩⟩
  refine ⟨?_, ?_, ?_⟩ <;>
    simp only [norm255, R, G, B, RDiv, GDiv, BDiv, clamp255_shift_eq_tdiv]

theorem shiftRight8_mono {a b : Int} (h : a ≤ b) : a >>> (8 : Nat) ≤ b >>> (8 : Nat) := by
  rw [shiftRight8_eq_ediv, shiftRight8_eq_ediv]
  omega

theorem clamp255_mono {a b : Int} (h : a ≤ b) : clamp255 a ≤ clamp255 b := by
  unfold clamp255
  split_ifs <;> omega

theorem norm255_mono {a b : Int} (h : a ≤ b) : norm255 a ≤ norm255 b := by
  unfold norm255
  have h1 : ((clamp255 a : Int) : ℚ) ≤ ((clamp255 b : Int) : ℚ) := by
    exact_mod_cast clamp255_mono h
  exact div_le_div_of_nonneg_right h1 (by norm_num)

/-- C17: for all bytes `Y`, `U`, `V` in `0..255` each of the three sums shifted on lines
53-55, and each product and partial sum in them, has absolute value below `2^18`, so it is
unchanged by 32-bit wrap-around; and for each channel some bytes give a shifted value below
0 and some a shifted value above 255. -/
theorem colour_sums_fit (Y U V : Int) (hY0 : 0 ≤ Y) (hY : Y ≤ 255) (hU0 : 0 ≤ U) (hU : U ≤ 255)
    (hV0 : 0 ≤ V) (hV : V ≤ 255) :
    (|rSum Y V| < 2 ^ 18 ∧ |gSum Y U V| < 2 ^ 18 ∧ |bSum Y U| < 2 ^ 18) ∧
    (|298 * (Y - 16)| < 2 ^ 18 ∧ |409 * (V - 128)| < 2 ^ 18 ∧ |100 * (U - 128)| < 2 ^ 18 ∧
      |208 * (V - 128)| < 2 ^ 18 ∧ |516 * (U - 128)| < 2 ^ 18 ∧
      |298 * (Y - 16) + 409 * (V - 128)| < 2 ^ 18 ∧
      |298 * (Y - 16) - 100 * (U - 128)| < 2 ^ 18 ∧
      |298 * (Y - 16) - 100 * (U - 128) - 208 * (V - 128)| < 2 ^ 18 ∧
      |298 * (Y - 16) + 516 * (U - 128)| < 2 ^ 18) ∧
    (wrapInt32 (rSum Y V) = rSum Y V ∧ wrapInt32 (gSum Y U V) = gSum Y U V ∧
      wrapInt32 (bSum Y U) = bSum Y U) ∧
    ((∃ y v : Int, 0 ≤ y ∧ y ≤ 255 ∧ 0 ≤ v ∧ v ≤ 255 ∧ R y v < 0) ∧
      (∃ y v : Int, 0 ≤ y ∧ y ≤ 255 ∧ 0 ≤ v ∧ v ≤ 255 ∧ 255 < R y v) ∧
      (∃ y u v : Int, 0 ≤ y ∧ y ≤ 255 ∧ 0 ≤ u ∧ u ≤ 255 ∧ 0 ≤ v ∧ v ≤ 255 ∧ G y u v < 0) ∧
      (∃ y u v : Int, 0 ≤ y ∧ y ≤ 255 ∧ 0 ≤ u ∧ u ≤ 255 ∧ 0 ≤ v ∧ v ≤ 255 ∧ 255 < G y u v) ∧
      (∃ y u : Int, 0 ≤ y ∧ y ≤ 255 ∧ 0 ≤ u ∧ u ≤ 255 ∧ B y u < 0) ∧
      (∃ y u : Int, 0 ≤ y ∧ y ≤ 255 ∧ 0 ≤ u ∧ u ≤ 255 ∧ 255 < B y u)) := by
  have e18 : (2 : Int) ^ 18 = 262144 := by norm_num
  refine ⟨?_, ?_, ?_, ?_⟩
  · unfold rSum gSum bSum
    rw [e18]
    refine ⟨abs_lt.2 ⟨by omega, by omega⟩, abs_lt.2 ⟨by omega, by omega⟩,
      abs_lt.2 ⟨by omega, by omega⟩⟩
  · rw [e18]
    refine ⟨abs_lt.2 ⟨by omega, by omega⟩, abs_lt.2 ⟨by omega, by omega⟩,
      abs_lt.2 ⟨by omega, by omega⟩, abs_lt.2 ⟨by omega, by omega⟩,
      abs_lt.2 ⟨by omega, by omega⟩, abs_lt.2 ⟨by omega, by omega⟩,
      abs_lt.2 ⟨by omega, by omega⟩, abs_lt.2 ⟨by omega, by omega⟩,
      abs_lt.2 ⟨by omega, by omega⟩⟩
  · refine ⟨wrapInt32_of_range ?_ ?_, wrapInt32_of_range ?_ ?_, wrapInt32_of_range ?_ ?_⟩ <;>
      (simp only [rSum, gSum, bSum]; norm_num; omega)
  · exact ⟨⟨0, 0, by decide⟩, ⟨255, 255, by decide⟩, ⟨0, 255, 255, by decide⟩,
      ⟨255, 0, 0, by decide⟩, ⟨0, 0, by decide⟩, ⟨255, 255, by decide⟩⟩

/-- Witness of C17: the largest bytes. -/
theorem colour_sums_fit_witness :
    |rSum 255 255| < 2 ^ 18 ∧ |gSum 255 255 255| < 2 ^ 18 ∧ |bSum 255 255| < 2 ^ 18 :=
  (colour_sums_fit 255 255 255 (by decide) (by decide) (by decide) (by decide) (by decide)
    (by decide)).1

/-! ## Length and range of a returned tensor -/

/-- C2: whenever `yuvToNchwFloats` returns a tensor for positive destination dimensions,
whatever the source dimensions and buffer, the tensor has exactly
`3 * dstWidth * dstHeight` elements. -/
theorem yuvToNchwFloats_length (yuvData : Option (List Int))
    (srcWidth srcHeight dstWidth dstHeight : Int) (t : List ℚ)
    (hdw : 0 < dstWidth) (hdh : 0 < dstHeight)
    (h : yuvToNchwFloats yuvData srcWidth srcHeight dstWidth dstHeight = .ok t) :
    (t.length : Int) = 3 * dstWidth * dstHeight := by
  cases yuvData with
  | none => cases h
  | some yuv =>
    have h' : convert yuv srcWidth srcHeight dstWidth dstHeight = .ok t := h
    rw [(convert_ok_spec hdw hdh h').2.1]
    ring

theorem white2x2 :
    yuvToNchwFloats (some [235, 235, 235, 235, 128, 128]) 2 2 1 1 = .ok [1, 1, 1] := by
  simp [yuvToNchwFloats, convert, forUpTo, forLoop, convertRow, convertPixel, storePixel,
    writeAt, readByte, sx, sy, yIndex, uvIndex, toUnsignedChar, norm255, clamp255, R, G, B,
    rSum, gSum, bSum, bind, Except.bind, pure, Except.pure, Int.tdiv,
    Int.shiftRight_eq_div_pow, wrapInt32]

/-- Witness of C2: a 2x2 white frame converted to one pixel gives three elements. -/
theorem yuvToNchwFloats_length_witness :
    yuvToNchwFloats (some [235, 235, 235, 235, 128, 128]) 2 2 1 1 = .ok [1, 1, 1] ∧
      ((([1, 1, 1] : List ℚ).length : Nat) : Int) = 3 * 1 * 1 :=
  ⟨white2x2, yuvToNchwFloats_length (some [235, 235, 235, 235, 128, 128]) 2 2 1 1 [1, 1, 1]
    (by decide) (by decide) white2x2⟩

theorem clamp255_range (v : Int) : 0 ≤ clamp255 v ∧ clamp255 v ≤ 255 := by
  unfold clamp255
  split_ifs <;> omega

theorem norm255_unit (k : Int) :
    (∃ k' : Int, 0 ≤ k' ∧ k' ≤ 255 ∧ norm255 k = (k' : ℚ) / 255) ∧
      0 ≤ norm255 k ∧ norm255 k ≤ 1 := by
  obtain ⟨h0, h1⟩ := clamp255_range k
  have h0' : (0 : ℚ) ≤ (clamp255 k : Int) := by exact_mod_cast h0
  have h1' : ((clamp255 k : Int) : ℚ) ≤ 255 := by exact_mod_cast h1
  unfold norm255
  refine ⟨⟨clamp255 k, h0, h1, rfl⟩, by positivity, ?_⟩
  rw [div_le_one (by norm_num)]
  exact h1'

/-- C3: every element of a tensor that `yuvToNchwFloats` returns, whatever the dimensions
and the bytes of the source, is `k / 255` for an integer `0 ≤ k ≤ 255` and so lies in
`[0, 1]`; and for positive dimensions, a source that holds the frame and products of lines
32-33 and 39-40 that fit in 32 bits a tensor is returned. -/
theorem yuvToNchwFloats_range (source : List Int)
    (srcWidth srcHeight dstWidth dstHeight : Int) :
    (∀ t, yuvToNchwFloats (some source) srcWidth srcHeight dstWidth dstHeight = .ok t →
      ∀ q ∈ t, (∃ k : Int, 0 ≤ k ∧ k ≤ 255 ∧ q = (k : ℚ) / 255) ∧ 0 ≤ q ∧ q ≤ 1) ∧
    (0 < srcWidth → 0 < srcHeight → 0 < dstWidth → 0 < dstHeight →
      srcWidth * srcHeight + 2 * ((srcWidth + 1) / 2) * ((srcHeight + 1) / 2)
        ≤ source.length →
      (source.length : Int) < 2 ^ 31 →
      (dstWidth - 1) * srcWidth < 2 ^ 31 → (dstHeight - 1) * srcHeight < 2 ^ 31 →
      3 * dstWidth * dstHeight < 2 ^ 31 →
      ∃ t, yuvToNchwFloats (some source) srcWidth srcHeight dstWidth dstHeight = .ok t) := by
  constructor
  · intro t hok
    refine convert_preserves
      (fun v => ∀ q ∈ v, (∃ k : Int, 0 ≤ k ∧ k ≤ 255 ∧ q = (k : ℚ) / 255) ∧ 0 ≤ q ∧ q ≤ 1)
      (fun v n k hv q hq => ?_) source srcWidth srcHeight dstWidth dstHeight t hok
      (fun q hq => ?_)
    · rcases List.mem_or_eq_of_mem_set hq with hmem | rfl
      · exact hv q hmem
      · exact norm255_unit k
    · rw [List.eq_of_mem_replicate hq]
      exact ⟨⟨0, le_refl 0, by decide, by norm_num⟩, le_refl 0, by norm_num⟩
  · intro hsw hsh hdw hdh hlen hmax hfx hfy hfit
    obtain ⟨t, hok, -, -⟩ := convert_valid source srcWidth srcHeight dstWidth dstHeight
      hsw hsh hdw hdh hfx hfy hfit (by unfold frameSize; omega) hlen
    exact ⟨t, hok⟩

/-- Witness of C3: a 2x2 white frame converted to 2x2 returns a tensor, and its elements
are in range. -/
theorem yuvToNchwFloats_range_witness :
    ∃ t, yuvToNchwFloats (some [235, 235, 235, 235, 128, 128]) 2 2 2 2 = .ok t ∧
      ∀ q ∈ t, (∃ k : Int, 0 ≤ k ∧ k ≤ 255 ∧ q = (k : ℚ) / 255) ∧ 0 ≤ q ∧ q ≤ 1 := by
  obtain ⟨t, ht⟩ := (yuvToNchwFloats_range [235, 235, 235, 235, 128, 128] 2 2 2 2).2
    (by decide) (by decide) (by decide) (by decide) (by decide) (by decide) (by decide)
    (by decide) (by decide)
  exact ⟨t, ht, (yuvToNchwFloats_range [235, 235, 235, 235, 128, 128] 2 2 2 2).1 t ht⟩

/-! ## Independence of the pixels -/

/-- Two tensors of the same positive shape that agree at the three plane positions of every
pixel are equal. -/
theorem tensor_ext (t1 t2 : List ℚ) (dstWidth dstHeight : Int)
    (hdw : 0 < dstWidth) (hdh : 0 < dstHeight)
    (hlen1 : (t1.length : Int) = dstWidth * dstHeight * 3)
    (hlen2 : (t2.length : Int) = dstWidth * dstHeight * 3)
    (hval : ∀ x y : Int, 0 ≤ x → x < dstWidth → 0 ≤ y → y < dstHeight →
      tensorAt t1 (y * dstWidth + x) = tensorAt t2 (y * dstWidth + x) ∧
      tensorAt t1 (y * dstWidth + x + dstWidth * dstHeight) =
        tensorAt t2 (y * dstWidth + x + dstWidth * dstHeight) ∧
      tensorAt t1 (y * dstWidth + x + 2 * (dstWidth * dstHeight)) =
        tensorAt t2 (y * dstWidth + x + 2 * (dstWidth * dstHeight))) :
    t1 = t2 := by
  apply List.ext_getElem?
  intro n
  have hat : ∀ t : List ℚ, tensorAt t (n : Int) = t[n]? := by
    intro t
    unfold tensorAt
    rw [if_pos (Int.natCast_nonneg n), Int.toNat_natCast]
  by_cases hn : n < t1.length
  · have hn' : (n : Int) < dstWidth * dstHeight * 3 := by omega
    obtain ⟨x, y, hx0, hx, hy0, hy, hcase⟩ :=
      index_decompose hdw hdh (Int.natCast_nonneg n) hn'
    obtain ⟨g1, g2, g3⟩ := hval x y hx0 hx hy0 hy
    rw [← hat t1, ← hat t2]
    rcases hcase with h | h | h <;> rw [h]
    · exact g1
    · exact g2
    · exact g3
  · rw [List.getElem?_eq_none (by omega), List.getElem?_eq_none (by omega)]

theorem pixelValue_congr {source1 source2 : List Int}
    {srcWidth srcHeight dstWidth dstHeight x y : Int}
    (hY : specByte source1 (yIndexAt srcWidth srcHeight dstWidth dstHeight x y) =
      specByte source2 (yIndexAt srcWidth srcHeight dstWidth dstHeight x y))
    (hV : specByte source1 (uvIndexAt srcWidth srcHeight dstWidth dstHeight x y) =
      specByte source2 (uvIndexAt srcWidth srcHeight dstWidth dstHeight x y))
    (hU : specByte source1 (uIndexAt srcWidth srcHeight dstWidth dstHeight x y) =
      specByte source2 (uIndexAt srcWidth srcHeight dstWidth dstHeight x y)) :
    pixelValue source1 srcWidth srcHeight dstWidth dstHeight x y =
      pixelValue source2 srcWidth srcHeight dstWidth dstHeight x y := by
  unfold specByte at hY hV hU
  unfold pixelValue
  simp only [toUnsignedChar, hY, hV, hU]

/-- C13: for positive destination dimensions and two source buffers, whenever both calls
return a tensor: if the buffers agree on the three bytes sampled for destination pixel
`(x, y)` (at the values of `yIndex`, `uvIndex` and `uvIndex + 1`), the tensors agree at that
pixel's three plane positions, whatever the other bytes are; buffers that agree on the
bytes sampled for every pixel, in particular identical buffers, give identical tensors;
and both calls do return when the dimensions are positive, the buffers hold the frame and
the products of lines 32-33 and 39-40 fit in 32 bits. -/
theorem per_pixel_independence (source1 source2 : List Int)
    (srcWidth srcHeight dstWidth dstHeight : Int)
    (hdw : 0 < dstWidth) (hdh : 0 < dstHeight) :
    (∀ t1 t2,
      yuvToNchwFloats (some source1) srcWidth srcHeight dstWidth dstHeight = .ok t1 →
      yuvToNchwFloats (some source2) srcWidth srcHeight dstWidth dstHeight = .ok t2 →
      (∀ x y : Int, 0 ≤ x → x < dstWidth → 0 ≤ y → y < dstHeight →
        specByte source1 (yIndexAt srcWidth srcHeight dstWidth dstHeight x y) =
          specByte source2 (yIndexAt srcWidth srcHeight dstWidth dstHeight x y) →
        specByte source1 (uvIndexAt srcWidth srcHeight dstWidth dstHeight x y) =
          specByte source2 (uvIndexAt srcWidth srcHeight dstWidth dstHeight x y) →
        specByte source1 (uIndexAt srcWidth srcHeight dstWidth dstHeight x y) =
          specByte source2 (uIndexAt srcWidth srcHeight dstWidth dstHeight x y) →
        tensorAt t1 (y * dstWidth + x) = tensorAt t2 (y * dstWidth + x) ∧
        tensorAt t1 (dstWidth * dstHeight + y * dstWidth + x) =
          tensorAt t2 (dstWidth * dstHeight + y * dstWidth + x) ∧
        tensorAt t1 (2 * dstWidth * dstHeight + y * dstWidth + x) =
          tensorAt t2 (2 * dstWidth * dstHeight + y * dstWidth + x)) ∧
      ((∀ x y : Int, 0 ≤ x → x < dstWidth → 0 ≤ y → y < dstHeight →
        specByte source1 (yIndexAt srcWidth srcHeight dstWidth dstHeight x y) =
          specByte source2 (yIndexAt srcWidth srcHeight dstWidth dstHeight x y) ∧
        specByte source1 (uvIndexAt srcWidth srcHeight dstWidth dstHeight x y) =
          specByte source2 (uvIndexAt srcWidth srcHeight dstWidth dstHeight x y) ∧
        specByte source1 (uIndexAt srcWidth srcHeight dstWidth dstHeight x y) =
          specByte source2 (uIndexAt srcWidth srcHeight dstWidth dstHeight x y)) →
        t1 = t2) ∧
      (source1 = source2 → t1 = t2)) ∧
    (0 < srcWidth → 0 < srcHeight →
      srcWidth * srcHeight + 2 * ((srcWidth + 1) / 2) * ((srcHeight + 1) / 2)
        ≤ source1.length →
      (source1.length : Int) < 2 ^ 31 →
      srcWidth * srcHeight + 2 * ((srcWidth + 1) / 2) * ((srcHeight + 1) / 2)
        ≤ source2.length →
      (dstWidth - 1) * srcWidth < 2 ^ 31 → (dstHeight - 1) * srcHeight < 2 ^ 31 →
      3 * dstWidth * dstHeight < 2 ^ 31 →
      ∃ t1 t2,
        yuvToNchwFloats (some source1) srcWidth srcHeight dstWidth dstHeight = .ok t1 ∧
        yuvToNchwFloats (some source2) srcWidth srcHeight dstWidth dstHeight = .ok t2) := by
  constructor
  · intro t1 t2 hok1 hok2
    have h1 : convert source1 srcWidth srcHeight dstWidth dstHeight = .ok t1 := hok1
    have h2 : convert source2 srcWidth srcHeight dstWidth dstHeight = .ok t2 := hok2
    obtain ⟨-, hl1, hval1⟩ := convert_ok_spec hdw hdh h1
    obtain ⟨-, hl2, hval2⟩ := convert_ok_spec hdw hdh h2
    have hpix : ∀ x y : Int, 0 ≤ x → x < dstWidth → 0 ≤ y → y < dstHeight →
        pixelValue source1 srcWidth srcHeight dstWidth dstHeight x y =
          pixelValue source2 srcWidth srcHeight dstWidth dstHeight x y →
        tensorAt t1 (y * dstWidth + x) = tensorAt t2 (y * dstWidth + x) ∧
        tensorAt t1 (y * dstWidth + x + dstWidth * dstHeight) =
          tensorAt t2 (y * dstWidth + x + dstWidth * dstHeight) ∧
        tensorAt t1 (y * dstWidth + x + 2 * (dstWidth * dstHeight)) =
          tensorAt t2 (y * dstWidth + x + 2 * (dstWidth * dstHeight)) := by
      intro x y hx0 hx hy0 hy he
      obtain ⟨-, a1, a2, a3⟩ := hval1 x y hx0 hx hy0 hy
      obtain ⟨-, b1, b2, b3⟩ := hval2 x y hx0 hx hy0 hy
      rw [a1, a2, a3, b1, b2, b3, he]
      exact ⟨rfl, rfl, rfl⟩
    have hall : (∀ x y : Int, 0 ≤ x → x < dstWidth → 0 ≤ y → y < dstHeight →
        specByte source1 (yIndexAt srcWidth srcHeight dstWidth dstHeight x y) =
          specByte source2 (yIndexAt srcWidth srcHeight dstWidth dstHeight x y) ∧
        specByte source1 (uvIndexAt srcWidth srcHeight dstWidth dstHeight x y) =
          specByte source2 (uvIndexAt srcWidth srcHeight dstWidth dstHeight x y) ∧
        specByte source1 (uIndexAt srcWidth srcHeight dstWidth dstHeight x y) =
          specByte source2 (uIndexAt srcWidth srcHeight dstWidth dstHeight x y)) →
        t1 = t2 := by
      intro hagree
      refine tensor_ext t1 t2 dstWidth dstHeight hdw hdh hl1 hl2 (fun x y hx0 hx hy0 hy => ?_)
      obtain ⟨eY, eV, eU⟩ := hagree x y hx0 hx hy0 hy
      exact hpix x y hx0 hx hy0 hy (pixelValue_congr eY eV eU)
    refine ⟨fun x y hx0 hx hy0 hy hY hV hU => ?_, hall,
      fun he => hall (fun x y _ _ _ _ => by rw [he]; exact ⟨rfl, rfl, rfl⟩)⟩
    have e2 : dstWidth * dstHeight + y * dstWidth + x =
        y * dstWidth + x + dstWidth * dstHeight := by ring
    have e3 : 2 * dstWidth * dstHeight + y * dstWidth + x =
        y * dstWidth + x + 2 * (dstWidth * dstHeight) := by ring
    rw [e2, e3]
    exact hpix x y hx0 hx hy0 hy (pixelValue_congr hY hV hU)
  · intro hsw hsh hlen1 hmax hlen2 hfx hfy hfit
    have hframe : frameSize srcWidth srcHeight ≤ 2 ^ 31 := by unfold frameSize; omega
    obtain ⟨t1, hok1, -, -⟩ := convert_valid source1 srcWidth srcHeight dstWidth dstHeight
      hsw hsh hdw hdh hfx hfy hfit hframe hlen1
    obtain ⟨t2, hok2, -, -⟩ := convert_valid source2 srcWidth srcHeight dstWidth dstHeight
      hsw hsh hdw hdh hfx hfy hfit hframe hlen2
    exact ⟨t1, t2, hok1, hok2⟩

/-- Witness of C13: two 2x2 frames that differ only in the luma byte of source pixel
`(1, 1)`, converted to 2x2; both calls return and the tensors agree at destination pixel
`(0, 0)`. -/
theorem per_pixel_independence_witness :
    ∃ t1 t2,
      yuvToNchwFloats (some [10, 20, 30, 40, -128, -128]) 2 2 2 2 = .ok t1 ∧
      yuvToNchwFloats (some [10, 20, 30, 99, -128, -128]) 2 2 2 2 = .ok t2 ∧
      tensorAt t1 (0 * 2 + 0) = tensorAt t2 (0 * 2 + 0) ∧
      tensorAt t1 (2 * 2 + 0 * 2 + 0) = tensorAt t2 (2 * 2 + 0 * 2 + 0) ∧
      tensorAt t1 (2 * 2 * 2 + 0 * 2 + 0) = tensorAt t2 (2 * 2 * 2 + 0 * 2 + 0) := by
  obtain ⟨t1, t2, h1, h2⟩ := (per_pixel_independence
    [10, 20, 30, 40, -128, -128] [10, 20, 30, 99, -128, -128] 2 2 2 2
    (by decide) (by decide)).2 (by decide) (by decide) (by decide) (by decide) (by decide)
    (by decide) (by decide) (by decide)
  exact ⟨t1, t2, h1, h2, ((per_pixel_independence
    [10, 20, 30, 40, -128, -128] [10, 20, 30, 99, -128, -128] 2 2 2 2
    (by decide) (by decide)).1 t1 t2 h1 h2).1 0 0 (by decide) (by decide) (by decide)
    (by decide) (by decide) (by decide) (by decide)⟩

/-! ## Grey pixels -/

/-- C16: for every luma byte `Y` in `0..255` and chroma bytes `U = V = 128`, the three
shifted values are all `(298*(Y-16) + 128) >> 8`, so the three normalised values of the
pixel are equal; that value does not decrease when `Y` grows; and in every tensor the
conversion returns, a pixel sampled from luma `Y` and chroma `128, 128` holds that one value
in its red, green and blue plane. -/
theorem grey_neutrality (Y : Int) (_hY0 : 0 ≤ Y) (_hY : Y ≤ 255) :
    R Y 128 = (298 * (Y - 16) + 128) >>> (8 : Nat) ∧
    G Y 128 128 = (298 * (Y - 16) + 128) >>> (8 : Nat) ∧
    B Y 128 = (298 * (Y - 16) + 128) >>> (8 : Nat) ∧
    norm255 (R Y 128) = norm255 (G Y 128 128) ∧ norm255 (G Y 128 128) = norm255 (B Y 128) ∧
    (∀ Y' : Int, 0 ≤ Y' → Y' ≤ 255 → Y ≤ Y' →
      R Y 128 ≤ R Y' 128 ∧ G Y 128 128 ≤ G Y' 128 128 ∧ B Y 128 ≤ B Y' 128 ∧
      norm255 (R Y 128) ≤ norm255 (R Y' 128)) ∧
    (∀ (source : List Int) (srcWidth srcHeight dstWidth dstHeight : Int) (t : List ℚ),
      0 < dstWidth → 0 < dstHeight →
      yuvToNchwFloats (some source) srcWidth srcHeight dstWidth dstHeight = .ok t →
      ∀ x y : Int, 0 ≤ x → x < dstWidth → 0 ≤ y → y < dstHeight →
        specByte source (yIndexAt srcWidth srcHeight dstWidth dstHeight x y) = Y →
        specByte source (uvIndexAt srcWidth srcHeight dstWidth dstHeight x y) = 128 →
        specByte source (uIndexAt srcWidth srcHeight dstWidth dstHeight x y) = 128 →
        tensorAt t (y * dstWidth + x) =
          some (norm255 ((298 * (Y - 16) + 128) >>> (8 : Nat))) ∧
        tensorAt t (dstWidth * dstHeight + y * dstWidth + x) =
          some (norm255 ((298 * (Y - 16) + 128) >>> (8 : Nat))) ∧
        tensorAt t (2 * dstWidth * dstHeight + y * dstWidth + x) =
          some (norm255 ((298 * (Y - 16) + 128) >>> (8 : Nat)))) := by
  have hR : ∀ y : Int, R y 128 = (298 * (y - 16) + 128) >>> (8 : Nat) := by
    intro y; unfold R rSum; norm_num
  have hG : ∀ y : Int, G y 128 128 = (298 * (y - 16) + 128) >>> (8 : Nat) := by
    intro y; unfold G gSum; norm_num
  have hB : ∀ y : Int, B y 128 = (298 * (y - 16) + 128) >>> (8 : Nat) := by
    intro y; unfold B bSum; norm_num
  refine ⟨hR Y, hG Y, hB Y, by rw [hR, hG], by rw [hG, hB], fun Y' _ _ hle => ?_,
    fun source srcWidth srcHeight dstWidth dstHeight t hdw hdh hok => ?_⟩
  · have hm : (298 * (Y - 16) + 128) >>> (8 : Nat) ≤ (298 * (Y' - 16) + 128) >>> (8 : Nat) :=
      shiftRight8_mono (by omega)
    refine ⟨by rw [hR, hR]; exact hm, by rw [hG, hG]; exact hm, by rw [hB, hB]; exact hm, ?_⟩
    exact norm255_mono (by rw [hR, hR]; exact hm)
  · have h' : convert source srcWidth srcHeight dstWidth dstHeight = .ok t := hok
    obtain ⟨-, -, hval⟩ := convert_ok_spec hdw hdh h'
    intro x y hx0 hx hy0 hy eY eV eU
    obtain ⟨-, hv⟩ := hval x y hx0 hx hy0 hy
    unfold specByte at eY eV eU
    have hp : pixelValue source srcWidth srcHeight dstWidth dstHeight x y =
        (norm255 ((298 * (Y - 16) + 128) >>> (8 : Nat)),
          norm255 ((298 * (Y - 16) + 128) >>> (8 : Nat)),
          norm255 ((298 * (Y - 16) + 128) >>> (8 : Nat))) := by
      unfold pixelValue
      simp only [toUnsignedChar, eY, eV, eU, hR, hG, hB]
    rw [hp] at hv
    have e2 : dstWidth * dstHeight + y * dstWidth + x =
        y * dstWidth + x + dstWidth * dstHeight := by ring
    have e3 : 2 * dstWidth * dstHeight + y * dstWidth + x =
        y * dstWidth + x + 2 * (dstWidth * dstHeight) := by ring
    rw [e2, e3]
    exact hv

/-- Witness of C16: luma 100 against brighter lumas. -/
theorem grey_neutrality_witness :
    R 100 128 = (298 * (100 - 16) + 128) >>> (8 : Nat) ∧
    G 100 128 128 = (298 * (100 - 16) + 128) >>> (8 : Nat) ∧
    B 100 128 = (298 * (100 - 16) + 128) >>> (8 : Nat) ∧
    norm255 (R 100 128) = norm255 (G 100 128 128) ∧
    norm255 (G 100 128 128) = norm255 (B 100 128) ∧
    ∀ Y' : Int, 0 ≤ Y' → Y' ≤ 255 → 100 ≤ Y' →
      R 100 128 ≤ R Y' 128 ∧ G 100 128 128 ≤ G Y' 128 128 ∧ B 100 128 ≤ B Y' 128 ∧
      norm255 (R 100 128) ≤ norm255 (R Y' 128) :=
  ⟨(grey_neutrality 100 (by decide) (by decide)).1,
    (grey_neutrality 100 (by decide) (by decide)).2.1,
    (grey_neutrality 100 (by decide) (by decide)).2.2.1,
    (grey_neutrality 100 (by decide) (by decide)).2.2.2.1,
    (grey_neutrality 100 (by decide) (by decide)).2.2.2.2.1,
    (grey_neutrality 100 (by decide) (by decide)).2.2.2.2.2.1⟩

/-! ## The partition of the output -/

/-- C11 refuted: a 3x1 frame needs 7 bytes; with only 5 bytes the conversion to 1x1 returns
a tensor, and a 2x2 frame (6 bytes needed) with 5 bytes converted to 1x1 reads the byte at
index 5, outside the buffer.  Neither call reports an invalid input. -/
theorem short_buffer_counterexample :
    (([-21, -21, -21, -128, -128] : List Int).length : Int) <
      3 * 1 + 2 * ((3 + 1) / 2) * ((1 + 1) / 2) ∧
    yuvToNchwFloats (some [-21, -21, -21, -128, -128]) 3 1 1 1 = .ok [1, 1, 1] ∧
    (([-21, -21, -21, -21, -128] : List Int).length : Int) <
      2 * 2 + 2 * ((2 + 1) / 2) * ((2 + 1) / 2) ∧
    yuvToNchwFloats (some [-21, -21, -21, -21, -128]) 2 2 1 1 = .error .outOfBounds := by
  refine ⟨by decide, ?_, by decide, ?_⟩
  · simp [yuvToNchwFloats, convert, forUpTo, forLoop, convertRow, convertPixel, storePixel,
      writeAt, readByte, sx, sy, yIndex, uvIndex, toUnsignedChar, norm255, clamp255, R, G, B,
      rSum, gSum, bSum, bind, Except.bind, pure, Except.pure, Int.tdiv,
      Int.shiftRight_eq_div_pow, wrapInt32]
  · simp [yuvToNchwFloats, convert, forUpTo, forLoop, convertRow, convertPixel, storePixel,
      writeAt, readByte, sx, sy, yIndex, uvIndex, toUnsignedChar, norm255, clamp255, R, G, B,
      rSum, gSum, bSum, bind, Except.bind, pure, Except.pure, Int.tdiv,
      Int.shiftRight_eq_div_pow, wrapInt32]

/-- C11 amended: for positive dimensions whose products on lines 32-33 and 39-40 fit in 32
bits, a frame size below `2^31` and a source shorter than
`srcWidth*srcHeight + 2*((srcWidth+1)/2)*((srcHeight+1)/2)` bytes the code makes no length
check: if for every destination pixel the largest sampled index, the value of
`uvIndex + 1`, is inside the buffer, it returns the tensor of the per-pixel formula; if for
some destination pixel it is not, the conversion reads outside the buffer. -/
theorem no_length_validation (source : List Int)
    (srcWidth srcHeight dstWidth dstHeight : Int)
    (hsw : 0 < srcWidth) (hsh : 0 < srcHeight) (hdw : 0 < dstWidth) (hdh : 0 < dstHeight)
    (hfx : (dstWidth - 1) * srcWidth < 2 ^ 31) (hfy : (dstHeight - 1) * srcHeight < 2 ^ 31)
    (hfit : 3 * dstWidth * dstHeight < 2 ^ 31)
    (hframe : srcWidth * srcHeight + 2 * ((srcWidth + 1) / 2) * ((srcHeight + 1) / 2)
      < 2 ^ 31)
    (_hshort : (source.length : Int) <
      srcWidth * srcHeight + 2 * ((srcWidth + 1) / 2) * ((srcHeight + 1) / 2)) :
    ((∀ x y : Int, 0 ≤ x → x < dstWidth → 0 ≤ y → y < dstHeight →
        uIndexAt srcWidth srcHeight dstWidth dstHeight x y < source.length) →
      ∃ t, yuvToNchwFloats (some source) srcWidth srcHeight dstWidth dstHeight = .ok t ∧
        (t.length : Int) = 3 * dstWidth * dstHeight ∧
        ∀ x y : Int, 0 ≤ x → x < dstWidth → 0 ≤ y → y < dstHeight →
          tensorAt t (y * dstWidth + x) =
            some (specPixel source srcWidth srcHeight dstWidth dstHeight x y).1 ∧
          tensorAt t (dstWidth * dstHeight + y * dstWidth + x) =
            some (specPixel source srcWidth srcHeight dstWidth dstHeight x y).2.1 ∧
          tensorAt t (2 * dstWidth * dstHeight + y * dstWidth + x) =
            some (specPixel source srcWidth srcHeight dstWidth dstHeight x y).2.2) ∧
    ((∃ x y : Int, 0 ≤ x ∧ x < dstWidth ∧ 0 ≤ y ∧ y < dstHeight ∧
        (source.length : Int) ≤ uIndexAt srcWidth srcHeight dstWidth dstHeight x y) →
      yuvToNchwFloats (some source) srcWidth srcHeight dstWidth dstHeight =
        .error .outOfBounds) ∧
    (∀ x y : Int, 0 ≤ x → x < dstWidth → 0 ≤ y → y < dstHeight →
      uIndexAt srcWidth srcHeight dstWidth dstHeight x y =
        srcWidth * srcHeight + (y * srcHeight / dstHeight / 2) * srcWidth +
          2 * (x * srcWidth / dstWidth / 2) + 1) := by
  have hfr : frameSize srcWidth srcHeight ≤ 2 ^ 31 := by unfold frameSize; omega
  have e3 : dstWidth * dstHeight * 3 = 3 * dstWidth * dstHeight := by ring
  have hfit' : dstWidth * dstHeight * 3 < 2 ^ 31 := by rw [e3]; exact hfit
  have hcs : 0 < dstWidth * dstHeight := Int.mul_pos hdw hdh
  refine ⟨fun hin => ?_, ?_, fun x y hx0 hx hy0 hy =>
    (sample_indices_exact hsw hsh hx0 hx hy0 hy hfx hfy hfr).2.2.2.2.1⟩
  · have hpix : ∀ x y : Int, 0 ≤ x → x < dstWidth → 0 ≤ y → y < dstHeight →
        convertPixel source srcWidth srcHeight dstWidth dstHeight x y =
          .ok (pixelValue source srcWidth srcHeight dstWidth dstHeight x y) := by
      intro x y hx0 hx hy0 hy
      obtain ⟨-, -, -, eV, eU, h1, h2, h3, -⟩ :=
        sample_indices_exact hsw hsh hx0 hx hy0 hy hfx hfy hfr
      have h5 : uIndexAt srcWidth srcHeight dstWidth dstHeight x y =
          uvIndexAt srcWidth srcHeight dstWidth dstHeight x y + 1 := by rw [eU, eV]
      have h4 := hin x y hx0 hx hy0 hy
      have h6 : 0 < srcWidth * srcHeight := Int.mul_pos hsw hsh
      rcases convertPixel_cases source srcWidth srcHeight dstWidth dstHeight x y with
        ⟨_, _, _, hp⟩ | ⟨hn, _⟩
      · exact hp
      · exact absurd ⟨⟨h1, by omega⟩, ⟨by omega, by omega⟩, ⟨by omega, h4⟩⟩ hn
    obtain ⟨t, hok, -, -⟩ := convert_filled source
      (pixelValue source srcWidth srcHeight dstWidth dstHeight) srcWidth srcHeight dstWidth
      dstHeight hdw hdh hfit' hpix
    obtain ⟨-, hl, hval⟩ := convert_ok_spec hdw hdh hok
    refine ⟨t, hok, by rw [hl, e3], fun x y hx0 hx hy0 hy => ?_⟩
    obtain ⟨-, g1, g2, g3⟩ := hval x y hx0 hx hy0 hy
    rw [pixelValue_eq_specPixel hsw hsh hx0 hx hy0 hy hfx hfy hfr] at g1 g2 g3
    have e2 : dstWidth * dstHeight + y * dstWidth + x =
        y * dstWidth + x + dstWidth * dstHeight := by ring
    have e4 : 2 * dstWidth * dstHeight + y * dstWidth + x =
        y * dstWidth + x + 2 * (dstWidth * dstHeight) := by ring
    rw [e2, e4]
    exact ⟨g1, g2, g3⟩
  · rintro ⟨x, y, hx0, hx, hy0, hy, hout⟩
    have halloc : ¬ wrapInt32 (wrapInt32 (dstWidth * dstHeight) * 3) < 0 := by
      rw [(sizes_exact hcs.le hfit').2]
      omega
    refine convert_fails source srcWidth srcHeight dstWidth dstHeight x y hx0 hx hy0 hy
      halloc ?_
    rcases convertPixel_cases source srcWidth srcHeight dstWidth dstHeight x y with
      ⟨_, _, h4, _⟩ | ⟨_, hp⟩
    · omega
    · exact hp

/-- Witness of the amended C11: the 5-byte buffer of a 3x1 frame (7 bytes needed) converted
to 1x1. -/
theorem no_length_validation_witness :
    ∃ t, yuvToNchwFloats (some [-21, -21, -21, -128, -128]) 3 1 1 1 = .ok t ∧
      (t.length : Int) = 3 * 1 * 1 ∧
      ∀ x y : Int, 0 ≤ x → x < 1 → 0 ≤ y → y < 1 →
        tensorAt t (y * 1 + x) =
          some (specPixel [-21, -21, -21, -128, -128] 3 1 1 1 x y).1 ∧
        tensorAt t (1 * 1 + y * 1 + x) =
          some (specPixel [-21, -21, -21, -128, -128] 3 1 1 1 x y).2.1 ∧
        tensorAt t (2 * 1 * 1 + y * 1 + x) =
          some (specPixel [-21, -21, -21, -128, -128] 3 1 1 1 x y).2.2 :=
  (no_length_validation [-21, -21, -21, -128, -128] 3 1 1 1 (by decide) (by decide)
    (by decide) (by decide) (by decide) (by decide) (by decide) (by decide) (by decide)).1
    (fun x y hx0 hx hy0 hy => by
      have hx' : x = 0 := by omega
      have hy' : y = 0 := by omega
      subst hx' hy'
      decide)

theorem forUpTo_nonpos {σ : Type} (hi : Int) (body : Int → σ → Except Fault σ) (s : σ)
    (h : hi ≤ 0) : forUpTo hi body s = .ok s := by
  unfold forUpTo
  have : hi.toNat = 0 := by omega
  rw [this]
  rfl

theorem forLoop_skip {σ : Type} (body : Int → σ → Except Fault σ)
    (hbody : ∀ k s, body k s = .ok s) (n : Nat) (i : Int) (s : σ) :
    forLoop body n i s = .ok s := by
  induction n generalizing i with
  | zero => rfl
  | succ n ih =>
    simp only [forLoop, bind, Except.bind, hbody]
    exact ih (i + 1)

/-- C12 refuted: with `dstWidth = 0` the conversion returns the empty tensor, with both
destination dimensions negative it returns a zero-filled tensor, and with
`srcWidth = srcHeight = 0` and a 1x1 destination it returns a tensor computed from the
first two bytes.  None of these calls reports an invalid input. -/
theorem bad_dimensions_counterexample :
    yuvToNchwFloats (some [-21, -21, -21, -21, -128, -128]) 2 2 0 2 = .ok [] ∧
    yuvToNchwFloats (some [-21, -21, -21, -21, -128, -128]) 2 2 (-1) (-2) =
      .ok [0, 0, 0, 0, 0, 0] ∧
    yuvToNchwFloats (some [-21, -128]) 0 0 1 1 = .ok [1, 56 / 85, 1] := by
  refine ⟨?_, ?_, ?_⟩
  · simp [yuvToNchwFloats, convert, forUpTo, forLoop, convertRow, bind, Except.bind,
      wrapInt32]
  · simp [yuvToNchwFloats, convert, forUpTo, forLoop, List.replicate, wrapInt32]
  · simp [yuvToNchwFloats, convert, forUpTo, forLoop, convertRow, convertPixel, storePixel,
      writeAt, readByte, sx, sy, yIndex, uvIndex, toUnsignedChar, norm255, clamp255, R, G, B,
      rSum, gSum, bSum, bind, Except.bind, pure, Except.pure, Int.tdiv,
      Int.shiftRight_eq_div_pow, wrapInt32]
    norm_num

/-- C12 amended: when a dimension is zero or negative the code validates nothing.  Where
`3*dstWidth*dstHeight` fits in 32 bits: if `dstWidth*dstHeight < 0` the allocation has a
negative size and no tensor is returned; if `dstWidth ≤ 0` or `dstHeight ≤ 0` with
`dstWidth*dstHeight ≥ 0`, no pixel is converted and the zero-filled tensor of
`3*dstWidth*dstHeight` elements is returned (empty when a dimension is zero); if both
destination dimensions are positive, the pixels are converted with the same index
expressions whatever the source dimensions are: a tensor of `3*dstWidth*dstHeight`
elements holding each pixel's values is returned when every pixel's reads are inside the
buffer, and otherwise the conversion reads outside the buffer. -/
theorem no_dimension_validation (yuv : List Int) (srcWidth srcHeight dstWidth dstHeight : Int)
    (_hbad : srcWidth ≤ 0 ∨ srcHeight ≤ 0 ∨ dstWidth ≤ 0 ∨ dstHeight ≤ 0)
    (hlow : -2 ^ 31 ≤ 3 * dstWidth * dstHeight) (hfit : 3 * dstWidth * dstHeight < 2 ^ 31) :
    (dstWidth * dstHeight < 0 →
      yuvToNchwFloats (some yuv) srcWidth srcHeight dstWidth dstHeight = .error .badAlloc) ∧
    (0 ≤ dstWidth * dstHeight → (dstWidth ≤ 0 ∨ dstHeight ≤ 0) →
      yuvToNchwFloats (some yuv) srcWidth srcHeight dstWidth dstHeight =
        .ok (List.replicate (3 * dstWidth * dstHeight).toNat 0)) ∧
    (0 < dstWidth → 0 < dstHeight →
      ((∀ x y : Int, 0 ≤ x → x < dstWidth → 0 ≤ y → y < dstHeight →
          ∃ p, convertPixel yuv srcWidth srcHeight dstWidth dstHeight x y = .ok p) →
        ∃ t, yuvToNchwFloats (some yuv) srcWidth srcHeight dstWidth dstHeight = .ok t ∧
          (t.length : Int) = 3 * dstWidth * dstHeight ∧
          ∀ x y : Int, 0 ≤ x → x < dstWidth → 0 ≤ y → y < dstHeight →
            ∃ p, convertPixel yuv srcWidth srcHeight dstWidth dstHeight x y = .ok p ∧
              tensorAt t (y * dstWidth + x) = some p.1 ∧
              tensorAt t (dstWidth * dstHeight + y * dstWidth + x) = some p.2.1 ∧
              tensorAt t (2 * dstWidth * dstHeight + y * dstWidth + x) = some p.2.2) ∧
      ((∃ x y : Int, 0 ≤ x ∧ x < dstWidth ∧ 0 ≤ y ∧ y < dstHeight ∧
          ∀ p, convertPixel yuv srcWidth srcHeight dstWidth dstHeight x y ≠ .ok p) →
        yuvToNchwFloats (some yuv) srcWidth srcHeight dstWidth dstHeight =
          .error .outOfBounds)) := by
  have e3 : 3 * dstWidth * dstHeight = dstWidth * dstHeight * 3 := by ring
  have e31 : (2 : Int) ^ 31 = 2147483648 := by norm_num
  rw [e3] at hlow hfit
  have hfit' := hfit
  rw [e31] at hlow hfit
  have w1 : wrapInt32 (dstWidth * dstHeight) = dstWidth * dstHeight :=
    wrapInt32_of_range (by rw [e31]; omega) (by rw [e31]; omega)
  have w2 : wrapInt32 (wrapInt32 (dstWidth * dstHeight) * 3) = dstWidth * dstHeight * 3 := by
    rw [w1]
    exact wrapInt32_of_range (by rw [e31]; omega) (by rw [e31]; omega)
  refine ⟨fun hneg => ?_, fun hnn hle => ?_, fun hdw hdh => ⟨fun hall => ?_, ?_⟩⟩
  · unfold yuvToNchwFloats convert
    simp only []
    rw [w2, if_pos (by omega)]
  · unfold yuvToNchwFloats convert
    simp only []
    rw [w2, w1, if_neg (by omega), e3]
    by_cases hh : dstHeight ≤ 0
    · exact forUpTo_nonpos dstHeight _ _ hh
    · have hw : dstWidth ≤ 0 := by
        rcases hle with h | h
        · exact h
        · exact absurd h hh
      unfold forUpTo
      exact forLoop_skip _ (fun y v => forUpTo_nonpos dstWidth _ _ hw) _ _ _
  · have hpix : ∀ x y : Int, 0 ≤ x → x < dstWidth → 0 ≤ y → y < dstHeight →
        convertPixel yuv srcWidth srcHeight dstWidth dstHeight x y =
          .ok (pixelValue yuv srcWidth srcHeight dstWidth dstHeight x y) := by
      intro x y hx0 hx hy0 hy
      obtain ⟨p, hp⟩ := hall x y hx0 hx hy0 hy
      rcases convertPixel_cases yuv srcWidth srcHeight dstWidth dstHeight x y with
        ⟨_, _, _, hq⟩ | ⟨_, hq⟩
      · exact hq
      · rw [hq] at hp
        cases hp
    obtain ⟨t, hok, -, -⟩ := convert_filled yuv
      (pixelValue yuv srcWidth srcHeight dstWidth dstHeight) srcWidth srcHeight dstWidth
      dstHeight hdw hdh hfit' hpix
    obtain ⟨-, hl, hval⟩ := convert_ok_spec hdw hdh hok
    refine ⟨t, hok, by rw [hl]; ring, fun x y hx0 hx hy0 hy => ?_⟩
    obtain ⟨hp, g1, g2, g3⟩ := hval x y hx0 hx hy0 hy
    have e2 : dstWidth * dstHeight + y * dstWidth + x =
        y * dstWidth + x + dstWidth * dstHeight := by ring
    have e4 : 2 * dstWidth * dstHeight + y * dstWidth + x =
        y * dstWidth + x + 2 * (dstWidth * dstHeight) := by ring
    rw [e2, e4]
    exact ⟨_, hp, g1, g2, g3⟩
  · rintro ⟨x, y, hx0, hx, hy0, hy, hno⟩
    have hcs : 0 < dstWidth * dstHeight := Int.mul_pos hdw hdh
    refine convert_fails yuv srcWidth srcHeight dstWidth dstHeight x y hx0 hx hy0 hy
      (by rw [w2]; omega) ?_
    rcases convertPixel_cases yuv srcWidth srcHeight dstWidth dstHeight x y with
      ⟨_, _, _, hq⟩ | ⟨_, hq⟩
    · exact absurd hq (hno _)
    · exact hq

/-- Witness of the amended C12: a call with `dstWidth = 0` returns the empty tensor. -/
theorem no_dimension_validation_witness :
    yuvToNchwFloats (some [-21, -21, -21, -21, -128, -128]) 2 2 0 2 =
      .ok (List.replicate ((3 : Int) * 0 * 2).toNat 0) :=
  (no_dimension_validation [-21, -21, -21, -21, -128, -128] 2 2 0 2
    (Or.inr (Or.inr (Or.inl (by decide)))) (by decide) (by decide)).2.1 (by decide)
    (Or.inl (by decide))

end ImageUtils
